import Mathlib

/-!
# The replica registry of `lib/libzpool/zrepl_mgmt.c`

A shallow embedding of the registry of `zvol_info_t` handles: the global
singly linked list `zvol_list`, the reference count kept in every handle,
and the functions that look handles up, create them and tear them down.

Conventions of the embedding.

* A C string is the list of its characters before the terminating NUL.
  String lengths are assumed to fit the `int` variables that hold them.
* The heap holds every `zvol_info_t` that was ever allocated; a pointer is
  an index into it, and `free` marks the slot instead of recycling it, so
  that a handle keeps its identity after it is gone.
* The use of a pointer to freed or unallocated memory is a `Fault`, and so
  is the abort of a failed `VERIFY0`. The string primitives `strcmp_at` and
  `char_at` check the index at which they start against the array; the
  lookup, which can start a compare in front of a stored name, is modelled
  with the result the compare has there, and the indices it reads are kept
  apart (`lookup_read_positions`).
* Every function body runs under `zvol_list_mutex`; the embedding is
  sequential, each call is one atomic step, and the `locked` argument of
  the reference-count functions, which only selects who acquires the
  mutex, has no effect on the data.
* `complete_queue`, the task queue and the pthread objects of a handle are
  not represented: `uzfs_zinfo_init` creates the queue empty and nothing in
  this file enqueues on it, so the debug assertion in `uzfs_zinfo_free`
  holds.
-/

namespace Zrepl

/-- A run that ends without a result: a read checked against its array that
starts outside it, the use of a pointer to no live object, or the abort of a
failed check. -/
inductive Fault where
  | outOfBounds
  | badPointer
  | verifyFailed
  deriving DecidableEq, Repr

deriving instance DecidableEq for Except

abbrev Ptr := Nat

abbrev CStr := List Char

/-- Modelled from the spec: the enumeration `zvol_info_state_t` is declared in
`zrepl_mgmt.h`, which is not among the sources. The spec gives a handle a
lifecycle state with a terminal offline marker; zero-filled memory is the
first enumerator. -/
inductive zvol_info_state_t where
  | ZVOL_INFO_STATE_ONLINE
  | ZVOL_INFO_STATE_OFFLINE
  deriving DecidableEq, Repr

open zvol_info_state_t

/-- Modelled from the spec: `zvol_info_t` is declared in `zrepl_mgmt.h`, which
is not among the sources. These are the fields that the functions of
`zrepl_mgmt.c` read and write; `refcnt` is kept as an unbounded integer. -/
structure zvol_info_t where
  state : zvol_info_state_t
  name : CStr
  zv : Nat
  refcnt : Int
  io_ack_waiting : Nat
  checkpointed_io_seq : Nat
  deriving DecidableEq, Repr

/-- One allocation of a `zvol_info_t`, with the mark left by `free`. -/
structure Slot where
  obj : zvol_info_t
  freed : Bool
  deriving DecidableEq, Repr

/-- Calls that leave this file. -/
inductive Event where
  | cond_signal (zinfo : Ptr)
  | close_dataset (zv : Nat)
  deriving DecidableEq, Repr

/-- The process state the registry functions work on. -/
structure World where
  heap : List Slot
  zvol_list : List Ptr
  events : List Event
  deriving DecidableEq, Repr

/-- The state at process start: nothing allocated, `zvol_list` empty. -/
def World.empty : World := ⟨[], [], []⟩

/-! ## C strings -/

/-- The test `strcmp(s + off, t) == 0`, where `s` is the string held by a
character array. Reading starts at `s[off]`. -/
def strcmp_at (s : CStr) (off : Int) (t : CStr) : Except Fault Bool :=
  if off < 0 ∨ (s.length : Int) < off then .error .outOfBounds
  else .ok (decide (s.drop off.toNat = t))

/-- The read `s[i]` of a character array holding the string `s`; the
terminator is at index `strlen(s)`. -/
def char_at (s : CStr) (i : Int) : Except Fault Char :=
  if i < 0 ∨ (s.length : Int) < i then .error .outOfBounds
  else .ok (s[i.toNat]?.getD (Char.ofNat 0))

/-- The test `strncmp(a, b, n) == 0`. -/
def strncmp_eq (a b : CStr) (n : Nat) : Bool :=
  decide (a.take n = b.take n)

/-- The string `strlcpy(dst, src, size)` leaves in a zero-filled `dst`. -/
def strlcpy (src : CStr) (size : Nat) : CStr :=
  src.take (size - 1)

/-! ## The heap -/

/-- Dereference of a `zvol_info_t *`. -/
def deref (w : World) (p : Ptr) : Except Fault zvol_info_t :=
  match w.heap[p]? with
  | some s => if s.freed then .error .badPointer else .ok s.obj
  | none => .error .badPointer

/-- Assignment to the fields of a live `zvol_info_t`. -/
def store (w : World) (p : Ptr) (zi : zvol_info_t) : World :=
  { w with heap := w.heap.set p ⟨zi, false⟩ }

/-- The value `kmem_zalloc` followed by `bzero` leaves. -/
def zvol_info_t.zeroed : zvol_info_t :=
  ⟨ZVOL_INFO_STATE_ONLINE, [], 0, 0, 0, 0⟩

/-- The allocation `kmem_zalloc(sizeof (zvol_info_t), KM_SLEEP)`. -/
def kmem_zalloc (w : World) : Ptr × World :=
  (w.heap.length, { w with heap := w.heap ++ [⟨zvol_info_t.zeroed, false⟩] })

/-! ## The functions of `zrepl_mgmt.c` -/

/-- The function `uzfs_zinfo_free`. -/
def uzfs_zinfo_free (zinfo : Ptr) (w : World) : Except Fault World :=
  match deref w zinfo with
  | .error e => .error e
  | .ok zi => .ok { w with heap := w.heap.set zinfo ⟨zi, true⟩ }

/-- The function `uzfs_zinfo_drop_refcnt`. -/
def uzfs_zinfo_drop_refcnt (zinfo : Ptr) (_locked : Bool) (w : World) :
    Except Fault World :=
  match deref w zinfo with
  | .error e => .error e
  | .ok zi =>
    let w1 := store w zinfo { zi with refcnt := zi.refcnt - 1 }
    if zi.refcnt - 1 = 0 then uzfs_zinfo_free zinfo w1 else .ok w1

/-- The function `uzfs_zinfo_take_refcnt`. -/
def uzfs_zinfo_take_refcnt (zinfo : Ptr) (_locked : Bool) (w : World) :
    Except Fault World :=
  match deref w zinfo with
  | .error e => .error e
  | .ok zi => .ok (store w zinfo { zi with refcnt := zi.refcnt + 1 })

/-- The function `uzfs_insert_zinfo_list`. -/
def uzfs_insert_zinfo_list (zinfo : Ptr) (w : World) : Except Fault World :=
  match uzfs_zinfo_take_refcnt zinfo true w with
  | .error e => .error e
  | .ok w1 => .ok { w1 with zvol_list := zinfo :: w1.zvol_list }

/-- The function `uzfs_remove_zinfo_list`. `SLIST_REMOVE` walks the list up
to the element and dereferences NULL when the element is not on it. -/
def uzfs_remove_zinfo_list (zinfo : Ptr) (w : World) : Except Fault World :=
  if zinfo ∈ w.zvol_list then
    let w1 := { w with zvol_list := w.zvol_list.erase zinfo }
    match deref w1 zinfo with
    | .error e => .error e
    | .ok zi =>
      let w2 := store w1 zinfo { zi with state := ZVOL_INFO_STATE_OFFLINE }
      let w3 := if zi.io_ack_waiting ≠ 0 then
          { w2 with events := w2.events ++ [Event.cond_signal zinfo] } else w2
      uzfs_zinfo_drop_refcnt zinfo true w3
  else .error .badPointer

/-- The condition under which the loop of `uzfs_zinfo_lookup` stops at a
handle whose name is `zname`.

When `name` is longer than the stored name, `p` lies in front of the array
`zv->name` and `strcmp(p, name)` starts its compare there. Such a compare is 0
only if the bytes in front of the array are the first characters of `name` and
the stored name is the rest of it. When the stored name is not the end of
`name`, the compare is non-zero whatever the bytes in front are. When it is,
the outcome lies with the byte right in front of the array, which is part of
the handle but of no name: it is taken to be the 0 byte that ends the field in
front of `name` (the declaration of `zvol_info_t` is outside the sources), and
no character of `name` is 0. So the compare is non-zero, and the loop goes on
to the next handle. The positions that are read are `lookup_read_positions`. -/
def lookup_cond (zname : CStr) (name : Option CStr) : Except Fault Bool :=
  let namelen : Int := match name with
    | some n => n.length
    | none => 0
  let pathlen : Int := zname.length
  let p : Int := pathlen - namelen
  match name with
  | none => .ok true
  | some n =>
    if zname = n then .ok true
    else if p < 0 then .ok false
    else
      match strcmp_at zname p n with
      | .error e => .error e
      | .ok false => .ok false
      | .ok true =>
        match char_at zname (p - 1) with
        | .error e => .error e
        | .ok c => .ok (decide (c = '/'))

/-- The indices of the array `zv->name` at which the condition of the loop of
`uzfs_zinfo_lookup` starts a read for one handle, in the order of the reads:
the index `pathlen - namelen` at which `strcmp(p, name)` starts, when the
condition gets that far, and the index one before it, read by `*(--p)` when
that compare is 0. -/
def lookup_read_positions (zname : CStr) (name : Option CStr) : List Int :=
  let namelen : Int := match name with
    | some n => n.length
    | none => 0
  let pathlen : Int := zname.length
  let p : Int := pathlen - namelen
  match name with
  | none => []
  | some n =>
    if zname = n then []
    else if p < 0 then [p]
    else
      match strcmp_at zname p n with
      | .ok true => [p, p - 1]
      | _ => [p]

/-- The `SLIST_FOREACH` loop of `uzfs_zinfo_lookup`, over the rest of the
list; the result is the value of `zv` after the loop. -/
def lookup_loop (w : World) (name : Option CStr) :
    List Ptr → Except Fault (Option Ptr)
  | [] => .ok none
  | zv :: rest =>
    match deref w zv with
    | .error e => .error e
    | .ok zi =>
      match lookup_cond zi.name name with
      | .error e => .error e
      | .ok true => .ok (some zv)
      | .ok false => lookup_loop w name rest

/-- The function `uzfs_zinfo_lookup`; `none` is the NULL pointer, as
argument and as result. -/
def uzfs_zinfo_lookup (name : Option CStr) (w : World) :
    Except Fault (Option Ptr × World) :=
  match lookup_loop w name w.zvol_list with
  | .error e => .error e
  | .ok none => .ok (none, w)
  | .ok (some zv) =>
    match uzfs_zinfo_take_refcnt zv true w with
    | .error e => .error e
    | .ok w1 => .ok (some zv, w1)

/-- The reads that the loop of `uzfs_zinfo_lookup` makes in the arrays
`zv->name`, over the rest of the list: the handle and the index at which each
read starts. -/
def lookup_loop_reads (w : World) (name : Option CStr) : List Ptr → List (Ptr × Int)
  | [] => []
  | zv :: rest =>
    match deref w zv with
    | .error _ => []
    | .ok zi =>
      (lookup_read_positions zi.name name).map (fun i => (zv, i)) ++
        (match lookup_cond zi.name name with
          | .ok false => lookup_loop_reads w name rest
          | _ => [])

/-- The call `uzfs_close_dataset(zv)`, which leaves this file. -/
def uzfs_close_dataset (zv : Nat) (w : World) : World :=
  { w with events := w.events ++ [Event.close_dataset zv] }

/-- The first loop of `uzfs_zinfo_destroy` (no name given), over the rest of
the list. `spa` is the string `spa_name(spa)`. -/
def destroy_all_loop (spa : CStr) : List Ptr → World → Except Fault World
  | [], w => .ok w
  | zinfo :: zt, w =>
    match deref w zinfo with
    | .error e => .error e
    | .ok zi =>
      if strncmp_eq spa zi.name spa.length then
        match uzfs_remove_zinfo_list zinfo w with
        | .error e => .error e
        | .ok w1 => destroy_all_loop spa zt (uzfs_close_dataset zi.zv w1)
      else destroy_all_loop spa zt w

/-- The condition under which the second loop of `uzfs_zinfo_destroy`
removes a handle whose name is `zname`; `name` is not NULL there. -/
def destroy_cond (zname : CStr) (name : CStr) : Except Fault Bool :=
  let namelen : Nat := name.length
  if zname = name then .ok true
  else if strncmp_eq zname name namelen then
    match char_at zname namelen with
    | .error e => .error e
    | .ok c => .ok (decide (c = '/') || decide (c = '@'))
  else .ok false

/-- The second loop of `uzfs_zinfo_destroy` (a name is given), over the rest
of the list; it ends at the first handle it removes. -/
def destroy_one_loop (name : CStr) : List Ptr → World → Except Fault World
  | [], w => .ok w
  | zinfo :: zt, w =>
    match deref w zinfo with
    | .error e => .error e
    | .ok zi =>
      match destroy_cond zi.name name with
      | .error e => .error e
      | .ok true =>
        match uzfs_remove_zinfo_list zinfo w with
        | .error e => .error e
        | .ok w1 => .ok (uzfs_close_dataset zi.zv w1)
      | .ok false => destroy_one_loop name zt w

/-- The function `uzfs_zinfo_destroy`; `spa` is the string `spa_name(spa)`. -/
def uzfs_zinfo_destroy (name : Option CStr) (spa : CStr) (w : World) :
    Except Fault (Int × World) :=
  match name with
  | none =>
    match destroy_all_loop spa w.zvol_list w with
    | .error e => .error e
    | .ok w1 => .ok (0, w1)
  | some n =>
    match destroy_one_loop n w.zvol_list w with
    | .error e => .error e
    | .ok w1 => .ok (0, w1)

/-- The function `uzfs_zinfo_init`. `MAXNAMELEN` is defined outside the
sources and is a parameter. -/
def uzfs_zinfo_init (MAXNAMELEN : Nat) (zv : Nat) (ds_name : CStr) (w : World) :
    Except Fault (Int × World) :=
  let (zinfo, w1) := kmem_zalloc w
  match deref w1 zinfo with
  | .error e => .error e
  | .ok zi =>
    let w2 := store w1 zinfo { zi with name := strlcpy ds_name MAXNAMELEN }
    match deref w2 zinfo with
    | .error e => .error e
    | .ok zi2 =>
      let w3 := store w2 zinfo { zi2 with zv := zv }
      match uzfs_insert_zinfo_list zinfo w3 with
      | .error e => .error e
      | .ok w4 => .ok (0, w4)

/-! ## Specification vocabulary -/

/-- The handle at `p` is allocated, not freed, and holds `zi`. -/
def Live (w : World) (p : Ptr) (zi : zvol_info_t) : Prop :=
  w.heap[p]? = some ⟨zi, false⟩

instance (w : World) (p : Ptr) (zi : zvol_info_t) : Decidable (Live w p zi) := by
  unfold Live
  infer_instance

/-- The matching rule of the lookup in the words of the specification: the
stored name equals `name`, or ends with a slash followed by `name`. -/
def NameFound (zname name : CStr) : Prop :=
  zname = name ∨ ('/' :: name) <:+ zname

instance (zname name : CStr) : Decidable (NameFound zname name) := by
  unfold NameFound
  infer_instance

/-! ## Sequences of calls -/

/-- One call of `uzfs_zinfo_take_refcnt` or `uzfs_zinfo_drop_refcnt`, with its
`locked` argument. -/
inductive RefOp where
  | take (locked : Bool)
  | drop (locked : Bool)
  deriving DecidableEq, Repr

/-- The call is a take. -/
def RefOp.isTake : RefOp → Bool
  | .take _ => true
  | .drop _ => false

/-- The call is a drop. -/
def RefOp.isDrop : RefOp → Bool
  | .take _ => false
  | .drop _ => true

/-- The calls of a sequence, made one after the other on the handle `p`. -/
def run_ref_ops (p : Ptr) : List RefOp → World → Except Fault World
  | [], w => .ok w
  | .take locked :: ops, w =>
    match uzfs_zinfo_take_refcnt p locked w with
    | .error e => .error e
    | .ok w1 => run_ref_ops p ops w1
  | .drop locked :: ops, w =>
    match uzfs_zinfo_drop_refcnt p locked w with
    | .error e => .error e
    | .ok w1 => run_ref_ops p ops w1

/-- Takes minus drops. -/
def ref_balance (ops : List RefOp) : Int :=
  (ops.countP RefOp.isTake : Int) - (ops.countP RefOp.isDrop : Int)

/-! ## Well-formed registries and removal -/

/-- What `uzfs_remove_zinfo_list` leaves of a handle: the state is offline, the
refcount is one less, and the memory is freed when that count is 0. -/
def Slot.removed (s : Slot) : Slot :=
  ⟨{ s.obj with state := ZVOL_INFO_STATE_OFFLINE, refcnt := s.obj.refcnt - 1 },
    decide (s.obj.refcnt - 1 = 0)⟩

/-- The pointer `q` is to a handle that is allocated and not freed. -/
def is_live (w : World) (q : Ptr) : Bool :=
  match w.heap[q]? with
  | some s => !s.freed
  | none => false

/-- The name stored in the handle at `p`. -/
def name_of (w : World) (p : Ptr) : CStr :=
  match w.heap[p]? with
  | some s => s.obj.name
  | none => []

/-- The registry is well formed: no pointer is on the list twice, and every
pointer on the list is to a handle that is allocated and not freed. -/
def WF (w : World) : Prop :=
  w.zvol_list.Nodup ∧ ∀ q ∈ w.zvol_list, is_live w q = true

instance (w : World) : Decidable (WF w) := by
  unfold WF
  infer_instance

/-- The matching rule of the destroy by name: the stored name equals `name`, or
begins with `name` followed by a slash or an at sign. -/
def DestroyFound (zname name : CStr) : Prop :=
  zname = name ∨ (name ++ ['/']) <+: zname ∨ (name ++ ['@']) <+: zname

instance (zname name : CStr) : Decidable (DestroyFound zname name) := by
  unfold DestroyFound
  infer_instance

/-! ## The registry and its borrowers -/

/-- The registry together with the references that borrowers hold: `held` has
one entry per reference obtained by a lookup or a take and not yet dropped. -/
structure Sys where
  w : World
  held : List Ptr
  deriving DecidableEq, Repr

/-- The empty registry, no reference held. -/
def Sys.start : Sys := ⟨World.empty, []⟩

/-- One call of a registry function. A drop releases a reference that a
borrower holds. -/
inductive Step (MAXNAMELEN : Nat) : Sys → Sys → Prop where
  | init (s : Sys) (zv : Nat) (ds_name : CStr) (rc : Int) (w' : World) :
      uzfs_zinfo_init MAXNAMELEN zv ds_name s.w = .ok (rc, w') →
      Step MAXNAMELEN s ⟨w', s.held⟩
  | lookup_hit (s : Sys) (name : Option CStr) (p : Ptr) (w' : World) :
      uzfs_zinfo_lookup name s.w = .ok (some p, w') →
      Step MAXNAMELEN s ⟨w', p :: s.held⟩
  | lookup_miss (s : Sys) (name : Option CStr) (w' : World) :
      uzfs_zinfo_lookup name s.w = .ok (none, w') →
      Step MAXNAMELEN s ⟨w', s.held⟩
  | take (s : Sys) (p : Ptr) (locked : Bool) (w' : World) :
      uzfs_zinfo_take_refcnt p locked s.w = .ok w' →
      Step MAXNAMELEN s ⟨w', p :: s.held⟩
  | drop (s : Sys) (p : Ptr) (locked : Bool) (w' : World) :
      p ∈ s.held →
      uzfs_zinfo_drop_refcnt p locked s.w = .ok w' →
      Step MAXNAMELEN s ⟨w', s.held.erase p⟩
  | destroy (s : Sys) (name : Option CStr) (spa : CStr) (rc : Int) (w' : World) :
      uzfs_zinfo_destroy name spa s.w = .ok (rc, w') →
      Step MAXNAMELEN s ⟨w', s.held⟩

/-- The states reachable from the empty registry. -/
inductive Reachable (MAXNAMELEN : Nat) : Sys → Prop where
  | start : Reachable MAXNAMELEN Sys.start
  | step (s s' : Sys) : Reachable MAXNAMELEN s → Step MAXNAMELEN s s' →
      Reachable MAXNAMELEN s'

/-- The invariant of the reachable states. -/
def Inv (s : Sys) : Prop :=
  s.w.zvol_list.Nodup ∧
  (∀ p ∈ s.w.zvol_list, p < s.w.heap.length) ∧
  (∀ p ∈ s.held, p < s.w.heap.length) ∧
  (∀ p slot, s.w.heap[p]? = some slot →
    slot.obj.refcnt = (if p ∈ s.w.zvol_list then 1 else 0) + (s.held.count p : Int) ∧
    (slot.freed = true ↔ p ∉ s.w.zvol_list ∧ p ∉ s.held))

/-- Any number of calls of registry functions, one after the other. -/
inductive Steps (MAXNAMELEN : Nat) : Sys → Sys → Prop where
  | refl (s : Sys) : Steps MAXNAMELEN s s
  | tail (s s' s'' : Sys) : Steps MAXNAMELEN s s' → Step MAXNAMELEN s' s'' →
      Steps MAXNAMELEN s s''

/-! ## Block metadata (`uzfs_rebuilding.h`) -/

/-- Modelled from the spec: `blk_metadata_t` is declared outside the sources. The
spec gives block metadata a primary sequence number, assigned at write time,
and a secondary epoch that breaks ties. -/
structure blk_metadata_t where
  io_num : Nat
  epoch : Nat
  deriving DecidableEq, Repr

/-- Modelled from the spec: `compare_blk_metadata` is declared in
`uzfs_rebuilding.h` and defined outside the sources. The header has it return -1
if the first is less than the second, 0 if they are equal and 1 if the first is
greater; the spec orders by the primary sequence number first and, if equal, by
the secondary epoch. -/
def compare_blk_metadata (first_md second_md : blk_metadata_t) : Int :=
  if first_md.io_num < second_md.io_num then -1
  else if second_md.io_num < first_md.io_num then 1
  else if first_md.epoch < second_md.epoch then -1
  else if second_md.epoch < first_md.epoch then 1
  else 0

/-- The order of the spec on block metadata: by the primary sequence number,
then by the secondary epoch. -/
def blk_metadata_t.lt (a b : blk_metadata_t) : Prop :=
  a.io_num < b.io_num ∨ (a.io_num = b.io_num ∧ a.epoch < b.epoch)

instance (a b : blk_metadata_t) : Decidable (blk_metadata_t.lt a b) := by
  unfold blk_metadata_t.lt
  infer_instance

/-- A segment of a result list: the bytes from `offset` up to `offset + len`. -/
structure Segment where
  offset : Nat
  len : Nat
  deriving DecidableEq, Repr

/-- Modelled from the spec: `uzfs_search_nonoverlapping_io` is declared in
`uzfs_rebuilding.h` and defined outside the sources. The spec compares at the
granularity of the metadata block size; these are the parts of the range from
`pos` up to `end_`, one for each metadata block the range meets, as pairs of
offset and length. Every part has at least one byte, so `fuel` parts suffice for
a range of `fuel` bytes. -/
def io_chunks (meta_vol_block_size end_ : Nat) : Nat → Nat → List (Nat × Nat)
  | 0, _ => []
  | fuel + 1, pos =>
    if pos < end_ then
      let nxt := min end_ ((pos / meta_vol_block_size + 1) * meta_vol_block_size)
      (pos, nxt - pos) :: io_chunks meta_vol_block_size end_ fuel nxt
    else []

/-- Modelled from the spec: a kept part is put in front of the segments that
follow it, and coalesced with the first of them when the two are adjacent. -/
def add_segment (offset len : Nat) : List Segment → List Segment
  | [] => [⟨offset, len⟩]
  | s :: rest =>
    if s.offset = offset + len then ⟨offset, len + s.len⟩ :: rest
    else ⟨offset, len⟩ :: s :: rest

/-- Modelled from the spec: a part whose on-disk metadata is greater than the
metadata of the write is discarded, any other part is kept. `disk b` is the
metadata stored for the metadata block `b`. -/
def build_segments (meta_vol_block_size : Nat) (disk : Nat → blk_metadata_t)
    (w_metadata : blk_metadata_t) : List (Nat × Nat) → List Segment
  | [] => []
  | (offset, len) :: rest =>
    if compare_blk_metadata (disk (offset / meta_vol_block_size)) w_metadata = 1 then
      build_segments meta_vol_block_size disk w_metadata rest
    else
      add_segment offset len (build_segments meta_vol_block_size disk w_metadata rest)

/-- Modelled from the spec: `uzfs_search_nonoverlapping_io` is declared in
`uzfs_rebuilding.h` and defined outside the sources. The header comment has it
check the on-disk metadata against `w_metadata`, compared by
`meta_vol_block_size`, and populate the list with the segments that are not
discarded; reads of the on-disk metadata succeed here and the status is 0. -/
def uzfs_search_nonoverlapping_io (meta_vol_block_size : Nat) (disk : Nat → blk_metadata_t)
    (offset len : Nat) (w_metadata : blk_metadata_t) : Int × List Segment :=
  (0, build_segments meta_vol_block_size disk w_metadata
    (io_chunks meta_vol_block_size (offset + len) len offset))

/-- The byte `x` lies in one of the segments. -/
def covers (segs : List Segment) (x : Nat) : Prop :=
  ∃ s ∈ segs, s.offset ≤ x ∧ x < s.offset + s.len

/-- The segments ascend from `lo` on: each starts at or after `lo`, holds at
least one byte, and leaves at least one byte free before the next. -/
def SegsFrom (lo : Nat) : List Segment → Prop
  | [] => True
  | s :: rest => lo ≤ s.offset ∧ 0 < s.len ∧ SegsFrom (s.offset + s.len + 1) rest

/-! ## The checkpoint functions of `zrepl_mgmt.c` -/

/-- Modelled from the spec: the enumeration `zvol_status_t` is declared outside
the sources; the spec tells the healthy replicas from the others. -/
inductive zvol_status_t where
  | ZVOL_STATUS_DEGRADED
  | ZVOL_STATUS_HEALTHY
  deriving DecidableEq, Repr

open zvol_status_t

/-- Modelled from the spec: `zvol_state_t` is declared outside the sources. Of a
volume the functions here use its status and its checkpoint store, which the
spec describes as a small key/value store from a string key to an unsigned
64-bit value. -/
structure zvol_state_t where
  zv_status : zvol_status_t
  zap : List (CStr × Nat)
  deriving DecidableEq, Repr

/-- Modelled from the spec: `uzfs_zap_kv_t` is declared outside the sources;
these are the fields that the functions of `zrepl_mgmt.c` fill. -/
structure uzfs_zap_kv_t where
  key : CStr
  value : Nat
  size : Nat
  deriving DecidableEq, Repr

/-- Modelled from the spec: the `set(key, value)` of the checkpoint store. -/
def zap_set (key : CStr) (value : Nat) (zap : List (CStr × Nat)) : List (CStr × Nat) :=
  (key, value) :: zap.filter (fun e => e.1 != key)

/-- Modelled from the spec: the first `n` entries of the array handed to
`uzfs_update_zap_entries` are read and set, one after the other. -/
def zap_update_entries :
    List (Option uzfs_zap_kv_t) → Nat → List (CStr × Nat) → Except Fault (List (CStr × Nat))
  | _, 0, zap => .ok zap
  | [], _ + 1, _ => .error .outOfBounds
  | none :: _, _ + 1, _ => .error .badPointer
  | some kv :: rest, n + 1, zap => zap_update_entries rest n (zap_set kv.key kv.value zap)

/-- Modelled from the spec: `uzfs_update_zap_entries` is defined outside the
sources; it is the `set` of the checkpoint store of the volume `zv`, for `n`
entries, and succeeds with 0. -/
def uzfs_update_zap_entries (zv : Nat) (array : List (Option uzfs_zap_kv_t)) (n : Nat)
    (vols : List zvol_state_t) : Except Fault (Int × List zvol_state_t) :=
  match vols[zv]? with
  | none => .error .badPointer
  | some v =>
    match zap_update_entries array n v.zap with
    | .error e => .error e
    | .ok z => .ok (0, vols.set zv { v with zap := z })

/-- Modelled from the spec: `uzfs_read_zap_entry` is defined outside the sources;
it is the `get` of the checkpoint store of the volume `zv`. The value of the
entry is filled in when the key is there, otherwise the entry is left as it is
and the status is not 0. -/
def uzfs_read_zap_entry (zv : Nat) (zap : uzfs_zap_kv_t) (vols : List zvol_state_t) :
    Except Fault (Int × uzfs_zap_kv_t) :=
  match vols[zv]? with
  | none => .error .badPointer
  | some v =>
    match v.zap.lookup zap.key with
    | some x => .ok (0, { zap with value := x })
    | none => .ok (2, zap)

/-- Modelled from the spec: `uzfs_zvol_get_status` is defined outside the
sources; it reads the status of the volume. -/
def uzfs_zvol_get_status (zv : Nat) (vols : List zvol_state_t) : Except Fault zvol_status_t :=
  match vols[zv]? with
  | none => .error .badPointer
  | some v => .ok v.zv_status

/-- The function `uzfs_zvol_get_last_committed_io_no`; the result is the value
left in `*io_seq`. -/
def uzfs_zvol_get_last_committed_io_no (zv : Nat) (vols : List zvol_state_t) :
    Except Fault Nat :=
  let zap : uzfs_zap_kv_t := ⟨"io_seq".toList, 0, 8⟩
  match uzfs_read_zap_entry zv zap vols with
  | .error e => .error e
  | .ok (_, zap1) => .ok zap1.value

/-- The function `uzfs_zvol_store_last_committed_io_no`. `kv_array` is declared
with 0 elements; what is kept here is the pointer-size word at its address,
which the assignment `kv_array[0] = &zap` writes and from which
`uzfs_update_zap_entries`, called with that address and the count 1, reads its
one entry. -/
def uzfs_zvol_store_last_committed_io_no (zv : Nat) (io_seq : Nat)
    (vols : List zvol_state_t) : Except Fault (List zvol_state_t) :=
  let kv_array : List (Option uzfs_zap_kv_t) := [none]
  let zap : uzfs_zap_kv_t := ⟨"io_seq".toList, io_seq, 8⟩
  let kv_array1 := kv_array.set 0 (some zap)
  match uzfs_update_zap_entries zv kv_array1 1 vols with
  | .error e => .error e
  | .ok (rc, vols1) => if rc = 0 then .ok vols1 else .error .verifyFailed

/-- The `SLIST_FOREACH` loop of `uzfs_zinfo_update_io_seq_for_all_volumes`, over
the rest of the list. -/
def update_io_seq_loop (w : World) :
    List Ptr → List zvol_state_t → Except Fault (List zvol_state_t)
  | [], vols => .ok vols
  | zinfo :: rest, vols =>
    match deref w zinfo with
    | .error e => .error e
    | .ok zi =>
      match uzfs_zvol_get_status zi.zv vols with
      | .error e => .error e
      | .ok st =>
        if st = ZVOL_STATUS_HEALTHY then
          match uzfs_zvol_store_last_committed_io_no zi.zv zi.checkpointed_io_seq vols with
          | .error e => .error e
          | .ok vols1 => update_io_seq_loop w rest vols1
        else update_io_seq_loop w rest vols

/-- The function `uzfs_zinfo_update_io_seq_for_all_volumes`. -/
def uzfs_zinfo_update_io_seq_for_all_volumes (w : World) (vols : List zvol_state_t) :
    Except Fault (World × List zvol_state_t) :=
  match update_io_seq_loop w w.zvol_list vols with
  | .error e => .error e
  | .ok vols1 => .ok (w, vols1)

/-- The volume of the handle at `p`. -/
def zv_of (w : World) (p : Ptr) : Nat :=
  match w.heap[p]? with
  | some s => s.obj.zv
  | none => 0

/-! ## Basic facts about the heap -/

theorem deref_ok_iff (w : World) (p : Ptr) (zi : zvol_info_t) :
    deref w p = .ok zi ↔ Live w p zi := by
  unfold deref Live
  cases h : w.heap[p]? with
  | none => simp
  | some s =>
    obtain ⟨o, f⟩ := s
    cases f <;> simp

theorem deref_of_live {w : World} {p : Ptr} {zi : zvol_info_t} (h : Live w p zi) :
    deref w p = .ok zi := (deref_ok_iff w p zi).2 h

theorem live_lt {w : World} {p : Ptr} {zi : zvol_info_t} (h : Live w p zi) :
    p < w.heap.length := by
  unfold Live at h
  obtain ⟨hlt, _⟩ := List.getElem?_eq_some.1 h
  exact hlt

theorem live_store {w : World} {p : Ptr} {zi : zvol_info_t} (h : Live w p zi)
    (zj : zvol_info_t) : Live (store w p zj) p zj := by
  have := live_lt h
  simp [Live, store, List.getElem?_set, this]

theorem take_refcnt_live {w : World} {p : Ptr} {zi : zvol_info_t} (h : Live w p zi)
    (locked : Bool) :
    uzfs_zinfo_take_refcnt p locked w
      = .ok { w with heap := w.heap.set p ⟨{ zi with refcnt := zi.refcnt + 1 }, false⟩ } := by
  simp [uzfs_zinfo_take_refcnt, deref_of_live h, store]

theorem drop_refcnt_live {w : World} {p : Ptr} {zi : zvol_info_t} (h : Live w p zi)
    (locked : Bool) :
    uzfs_zinfo_drop_refcnt p locked w
      = .ok { w with heap := w.heap.set p (Slot.mk { zi with refcnt := zi.refcnt - 1 }
                (decide (zi.refcnt - 1 = 0))) } := by
  have hl := live_lt h
  unfold uzfs_zinfo_drop_refcnt
  rw [deref_of_live h]
  by_cases hz : zi.refcnt - 1 = 0
  · simp [hz, uzfs_zinfo_free, deref_of_live (live_store h _)]
    simp [store]
  · simp [hz, store]

/-! ## Facts about the lookup -/

theorem lookup_loop_some {w : World} {name : Option CStr} {l : List Ptr} {p : Ptr}
    (h : lookup_loop w name l = .ok (some p)) : p ∈ l ∧ ∃ zi, Live w p zi := by
  induction l with
  | nil => simp [lookup_loop] at h
  | cons q rest ih =>
    unfold lookup_loop at h
    cases hd : deref w q with
    | error e => simp [hd] at h
    | ok zi =>
      simp only [hd] at h
      cases hc : lookup_cond zi.name name with
      | error e => simp [hc] at h
      | ok b =>
        simp only [hc] at h
        cases b with
        | true =>
          simp at h
          subst h
          exact ⟨List.mem_cons_self _ _, zi, (deref_ok_iff w q zi).1 hd⟩
        | false =>
          simp at h
          obtain ⟨hm, hl⟩ := ih h
          exact ⟨List.mem_cons_of_mem _ hm, hl⟩

theorem lookup_inv {name : Option CStr} {w w' : World} {r : Option Ptr}
    (h : uzfs_zinfo_lookup name w = .ok (r, w')) :
    (r = none ∧ w' = w) ∨
    (∃ p zi, r = some p ∧ p ∈ w.zvol_list ∧ Live w p zi ∧
      lookup_loop w name w.zvol_list = .ok (some p) ∧
      w' = { w with heap := w.heap.set p ⟨{ zi with refcnt := zi.refcnt + 1 }, false⟩ }) := by
  unfold uzfs_zinfo_lookup at h
  cases hl : lookup_loop w name w.zvol_list with
  | error e => simp [hl] at h
  | ok o =>
    rw [hl] at h
    cases o with
    | none =>
      simp at h
      exact Or.inl ⟨h.1.symm, h.2.symm⟩
    | some p =>
      obtain ⟨hm, zi, hz⟩ := lookup_loop_some hl
      simp [take_refcnt_live hz] at h
      exact Or.inr ⟨p, zi, h.1.symm, hm, hz, rfl, h.2.symm⟩

/-! ## C3: what a lookup changes -/

/-- C3: when `uzfs_zinfo_lookup` returns NULL the state is unchanged; when it
returns a handle, that handle is on the list and live, its refcount is one more
than before while its name, state and the rest of its fields are unchanged, every
other heap slot is unchanged, and the list (membership and order) is unchanged. -/
theorem lookup_frame (name : Option CStr) (w w' : World) (r : Option Ptr)
    (h : uzfs_zinfo_lookup name w = .ok (r, w')) :
    (r = none → w' = w) ∧
    (∀ p, r = some p →
      p ∈ w.zvol_list ∧
      w'.zvol_list = w.zvol_list ∧ w'.events = w.events ∧
      w'.heap.length = w.heap.length ∧
      (∃ s s', w.heap[p]? = some s ∧ w'.heap[p]? = some s' ∧
        s'.obj.refcnt = s.obj.refcnt + 1 ∧ s'.obj.name = s.obj.name ∧
        s'.obj.state = s.obj.state ∧ s'.obj.zv = s.obj.zv ∧
        s'.obj.io_ack_waiting = s.obj.io_ack_waiting ∧
        s'.obj.checkpointed_io_seq = s.obj.checkpointed_io_seq ∧
        s.freed = false ∧ s'.freed = false) ∧
      (∀ q, q ≠ p → w'.heap[q]? = w.heap[q]?)) := by
  rcases lookup_inv h with ⟨hr, hw⟩ | ⟨p, zi, hr, hm, hz, -, hw⟩
  · subst hr
    exact ⟨fun _ => hw, fun p hp => absurd hp (by simp)⟩
  · subst hr hw
    refine ⟨fun hn => absurd hn (by simp), ?_⟩
    intro q hq
    simp at hq
    subst hq
    have hlt := live_lt hz
    refine ⟨hm, rfl, rfl, by simp, ?_, ?_⟩
    · refine ⟨⟨zi, false⟩, ⟨{ zi with refcnt := zi.refcnt + 1 }, false⟩, hz, ?_, ?_⟩
      · simp [List.getElem?_set, hlt]
      · simp
    · intro q hq
      simp [List.getElem?_set, Ne.symm hq]

/-- Witness of C3: the lookup of "vol" in the registry holding "pool/vol". -/
theorem lookup_frame_witness :
    uzfs_zinfo_lookup (some "vol".toList)
        ⟨[⟨⟨ZVOL_INFO_STATE_ONLINE, "pool/vol".toList, 7, 1, 0, 0⟩, false⟩], [0], []⟩
      = .ok (some 0,
        ⟨[⟨⟨ZVOL_INFO_STATE_ONLINE, "pool/vol".toList, 7, 2, 0, 0⟩, false⟩], [0], []⟩) ∧
    (0 : Ptr) ∈ [0] :=
  ⟨by decide, ((lookup_frame (some "vol".toList)
      ⟨[⟨⟨ZVOL_INFO_STATE_ONLINE, "pool/vol".toList, 7, 1, 0, 0⟩, false⟩], [0], []⟩
      ⟨[⟨⟨ZVOL_INFO_STATE_ONLINE, "pool/vol".toList, 7, 2, 0, 0⟩, false⟩], [0], []⟩
      (some 0) (by decide)).2 0 rfl).1⟩

/-! ## C4: creation of a handle -/

theorem init_eq (MAXNAMELEN zv : Nat) (ds_name : CStr) (w : World) :
    uzfs_zinfo_init MAXNAMELEN zv ds_name w = .ok (0,
      { heap := w.heap ++ [⟨⟨ZVOL_INFO_STATE_ONLINE, strlcpy ds_name MAXNAMELEN, zv, 1, 0, 0⟩, false⟩],
        zvol_list := w.heap.length :: w.zvol_list,
        events := w.events }) := by
  simp [uzfs_zinfo_init, kmem_zalloc, deref, store, uzfs_insert_zinfo_list,
    uzfs_zinfo_take_refcnt, zvol_info_t.zeroed]

theorem strlcpy_short {ds_name : CStr} {size : Nat} (h : ds_name.length < size) :
    strlcpy ds_name size = ds_name := by
  unfold strlcpy
  exact List.take_of_length_le (by omega)

theorem lookup_cond_self (zname : CStr) : lookup_cond zname (some zname) = .ok true := by
  simp [lookup_cond]

/-- C4: for a dataset name shorter than `MAXNAMELEN`, `uzfs_zinfo_init` returns 0;
the heap grows by one handle (a new pointer) whose refcount is 1, whose name is
`ds_name` and whose `zv` is the argument, and which is not freed; that pointer is
put at the head of the registry; the existing handles and the rest of the list
are unchanged. The lookup of `ds_name` that follows returns the new pointer, and
changes nothing but its refcount, which becomes 2. -/
theorem init_then_lookup (MAXNAMELEN zv : Nat) (ds_name : CStr) (w : World)
    (hlen : ds_name.length < MAXNAMELEN) :
    ∃ w1, uzfs_zinfo_init MAXNAMELEN zv ds_name w = .ok (0, w1) ∧
      w1.heap = w.heap ++ [⟨⟨ZVOL_INFO_STATE_ONLINE, ds_name, zv, 1, 0, 0⟩, false⟩] ∧
      w1.zvol_list = w.heap.length :: w.zvol_list ∧
      w1.events = w.events ∧
      ∃ w2, uzfs_zinfo_lookup (some ds_name) w1 = .ok (some w.heap.length, w2) ∧
        w2.heap = w.heap ++ [⟨⟨ZVOL_INFO_STATE_ONLINE, ds_name, zv, 2, 0, 0⟩, false⟩] ∧
        w2.zvol_list = w1.zvol_list ∧ w2.events = w1.events := by
  refine ⟨_, init_eq MAXNAMELEN zv ds_name w, ?_, rfl, rfl, ?_⟩
  · rw [strlcpy_short hlen]
  · rw [strlcpy_short hlen]
    have hd : deref
        { heap := w.heap ++ [⟨⟨ZVOL_INFO_STATE_ONLINE, ds_name, zv, 1, 0, 0⟩, false⟩],
          zvol_list := w.heap.length :: w.zvol_list, events := w.events }
        w.heap.length = .ok ⟨ZVOL_INFO_STATE_ONLINE, ds_name, zv, 1, 0, 0⟩ := by
      simp [deref]
    refine ⟨{ heap := w.heap ++ [⟨⟨ZVOL_INFO_STATE_ONLINE, ds_name, zv, 2, 0, 0⟩, false⟩],
              zvol_list := w.heap.length :: w.zvol_list, events := w.events }, ?_, rfl, rfl, rfl⟩
    simp only [uzfs_zinfo_lookup, lookup_loop, hd, lookup_cond_self,
      uzfs_zinfo_take_refcnt, store]
    simp

/-- Witness of C4: a handle for "pool/vol" is created in the empty registry. -/
theorem init_then_lookup_witness :
    "pool/vol".toList.length < 256 ∧
    ∃ w1, uzfs_zinfo_init 256 7 "pool/vol".toList World.empty = .ok (0, w1) ∧
      w1.heap = World.empty.heap ++
        [⟨⟨ZVOL_INFO_STATE_ONLINE, "pool/vol".toList, 7, 1, 0, 0⟩, false⟩] ∧
      w1.zvol_list = World.empty.heap.length :: World.empty.zvol_list ∧
      w1.events = World.empty.events ∧
      ∃ w2, uzfs_zinfo_lookup (some "pool/vol".toList) w1
          = .ok (some World.empty.heap.length, w2) ∧
        w2.heap = World.empty.heap ++
          [⟨⟨ZVOL_INFO_STATE_ONLINE, "pool/vol".toList, 7, 2, 0, 0⟩, false⟩] ∧
        w2.zvol_list = w1.zvol_list ∧ w2.events = w1.events :=
  ⟨by decide, init_then_lookup 256 7 "pool/vol".toList World.empty (by decide)⟩

/-! ## C8: the pool-wide destroy matches on a bare string head -/

/-- C8 (code at the failing input): the registry holds "tank2/vol" and
"tank/vol", and the pool "tank" is destroyed with no name given. The name
"tank2/vol" is not "tank" and does not begin with "tank/" or "tank@", yet
`strncmp(spa_name(spa), zinfo->name, strlen(spa_name(spa)))` is 0 for it: the
handle of the other pool is taken off the list, set offline and freed. -/
theorem destroy_pool_tank_removes_tank2 :
    ∃ w0 w w1,
      uzfs_zinfo_init 256 1 "tank2/vol".toList World.empty = .ok (0, w0) ∧
      uzfs_zinfo_init 256 2 "tank/vol".toList w0 = .ok (0, w) ∧
      w.zvol_list = [1, 0] ∧
      deref w 0 = .ok ⟨ZVOL_INFO_STATE_ONLINE, "tank2/vol".toList, 1, 1, 0, 0⟩ ∧
      strncmp_eq "tank".toList "tank2/vol".toList "tank".toList.length = true ∧
      uzfs_zinfo_destroy none "tank".toList w = .ok (0, w1) ∧
      w1.zvol_list = [] ∧
      w1.heap[0]? = some ⟨⟨ZVOL_INFO_STATE_OFFLINE, "tank2/vol".toList, 1, 0, 0, 0⟩, true⟩ := by
  refine ⟨⟨[⟨⟨ZVOL_INFO_STATE_ONLINE, "tank2/vol".toList, 1, 1, 0, 0⟩, false⟩], [0], []⟩,
    ⟨[⟨⟨ZVOL_INFO_STATE_ONLINE, "tank2/vol".toList, 1, 1, 0, 0⟩, false⟩,
      ⟨⟨ZVOL_INFO_STATE_ONLINE, "tank/vol".toList, 2, 1, 0, 0⟩, false⟩], [1, 0], []⟩,
    ⟨[⟨⟨ZVOL_INFO_STATE_OFFLINE, "tank2/vol".toList, 1, 0, 0, 0⟩, true⟩,
      ⟨⟨ZVOL_INFO_STATE_OFFLINE, "tank/vol".toList, 2, 0, 0, 0⟩, true⟩], [],
      [Event.close_dataset 2, Event.close_dataset 1]⟩,
    by decide, by decide, rfl, by decide, by decide, by decide, rfl, rfl⟩

/-! ## C9: balanced sequences of takes and drops -/

theorem ref_balance_nil : ref_balance [] = 0 := by simp [ref_balance]

theorem ref_balance_take (l : Bool) (ops : List RefOp) :
    ref_balance (.take l :: ops) = ref_balance ops + 1 := by
  simp [ref_balance, List.countP_cons, RefOp.isTake, RefOp.isDrop]
  omega

theorem ref_balance_drop (l : Bool) (ops : List RefOp) :
    ref_balance (.drop l :: ops) = ref_balance ops - 1 := by
  simp [ref_balance, List.countP_cons, RefOp.isTake, RefOp.isDrop]
  omega

theorem run_ref_ops_live (p : Ptr) (ops : List RefOp) :
    ∀ (w : World) (zi : zvol_info_t), Live w p zi →
      (∀ k, 1 ≤ zi.refcnt + ref_balance (ops.take k)) →
      run_ref_ops p ops w = .ok { w with
        heap := w.heap.set p ⟨{ zi with refcnt := zi.refcnt + ref_balance ops }, false⟩ } := by
  induction ops with
  | nil =>
    intro w zi hl _
    have : w.heap.set p ⟨zi, false⟩ = w.heap := by
      apply List.ext_getElem?
      intro i
      by_cases hi : p = i
      · subst hi
        simp [List.getElem?_set, live_lt hl]
        exact ((List.getElem?_eq_some.1 hl).2).symm
      · simp [List.getElem?_set, hi]
    simp [run_ref_ops, ref_balance_nil, this]
  | cons op ops ih =>
    intro w zi hl hk
    have hlt := live_lt hl
    cases op with
    | take l =>
      have h1 := hk 1
      simp [ref_balance_take, ref_balance_nil] at h1
      simp only [run_ref_ops, take_refcnt_live hl]
      have hl2 : Live { w with heap := w.heap.set p ⟨{ zi with refcnt := zi.refcnt + 1 }, false⟩ }
          p { zi with refcnt := zi.refcnt + 1 } := by
        simp [Live, List.getElem?_set, hlt]
      rw [ih _ _ hl2]
      · simp [ref_balance_take]
        ring_nf
      · intro k
        have := hk (k + 1)
        simp [ref_balance_take] at this
        simp
        omega
    | drop l =>
      have h1 := hk 1
      simp [ref_balance_drop, ref_balance_nil] at h1
      have hne : ¬ (zi.refcnt - 1 = 0) := by omega
      simp only [run_ref_ops, drop_refcnt_live hl, hne, decide_False]
      have hl2 : Live { w with heap := w.heap.set p ⟨{ zi with refcnt := zi.refcnt - 1 }, false⟩ }
          p { zi with refcnt := zi.refcnt - 1 } := by
        simp [Live, List.getElem?_set, hlt]
      rw [ih _ _ hl2]
      · simp [ref_balance_drop]
        ring_nf
      · intro k
        have := hk (k + 1)
        simp [ref_balance_drop] at this
        simp
        omega

/-- C9: on a live handle whose refcount is at least 1, run a sequence of
`uzfs_zinfo_take_refcnt` and `uzfs_zinfo_drop_refcnt` calls, each in the locked or
the unlocked form, in which every prefix has at least as many takes as drops and
the whole has as many takes as drops. Every call returns, the state after the
sequence is the state before it (the refcount is the same again), and after
every prefix the handle is not freed and its refcount is at least 1. -/
theorem take_drop_pairs (w : World) (p : Ptr) (zi : zvol_info_t) (ops : List RefOp)
    (hl : Live w p zi) (hr : 1 ≤ zi.refcnt)
    (hpre : ∀ k, (ops.take k).countP RefOp.isDrop ≤ (ops.take k).countP RefOp.isTake)
    (htot : ops.countP RefOp.isDrop = ops.countP RefOp.isTake) :
    run_ref_ops p ops w = .ok w ∧
    ∀ k, ∃ wk zk, run_ref_ops p (ops.take k) w = .ok wk ∧ Live wk p zk ∧
      zi.refcnt ≤ zk.refcnt ∧ 1 ≤ zk.refcnt := by
  have hb : ∀ k, 0 ≤ ref_balance (ops.take k) := by
    intro k
    have := hpre k
    unfold ref_balance
    omega
  have hlt := live_lt hl
  constructor
  · rw [run_ref_ops_live p ops w zi hl (fun k => by have := hb k; omega)]
    have h0 : ref_balance ops = 0 := by
      unfold ref_balance
      omega
    have hs : w.heap.set p ⟨zi, false⟩ = w.heap := by
      apply List.ext_getElem?
      intro i
      by_cases hi : p = i
      · subst hi
        simp [List.getElem?_set, hlt]
        exact ((List.getElem?_eq_some.1 hl).2).symm
      · simp [List.getElem?_set, hi]
    simp [h0, hs]
  · intro k
    refine ⟨_, { zi with refcnt := zi.refcnt + ref_balance (ops.take k) },
      run_ref_ops_live p (ops.take k) w zi hl ?_, ?_, ?_, ?_⟩
    · intro j
      rw [List.take_take]
      have := hb (min j k)
      omega
    · simp [Live, List.getElem?_set, hlt]
    · have := hb k
      simp
      omega
    · have := hb k
      simp
      omega

/-- Witness of C9: two nested take/drop pairs on a handle whose refcount is 1. -/
theorem take_drop_pairs_witness :
    run_ref_ops 0 [.take false, .take true, .drop true, .drop false]
        ⟨[⟨⟨ZVOL_INFO_STATE_ONLINE, "pool/vol".toList, 7, 1, 0, 0⟩, false⟩], [0], []⟩
      = .ok ⟨[⟨⟨ZVOL_INFO_STATE_ONLINE, "pool/vol".toList, 7, 1, 0, 0⟩, false⟩], [0], []⟩ :=
  (take_drop_pairs
    ⟨[⟨⟨ZVOL_INFO_STATE_ONLINE, "pool/vol".toList, 7, 1, 0, 0⟩, false⟩], [0], []⟩ 0
    ⟨ZVOL_INFO_STATE_ONLINE, "pool/vol".toList, 7, 1, 0, 0⟩
    [.take false, .take true, .drop true, .drop false]
    (by decide) (by decide)
    (fun k => match k with
      | 0 => by decide
      | 1 => by decide
      | 2 => by decide
      | 3 => by decide
      | _ + 4 => by simp [RefOp.isTake, RefOp.isDrop])
    (by decide)).1

/-! ## C10: a drop on a count of zero -/

/-- C10 (counterexample): a handle as `kmem_zalloc` leaves it has refcount 0 and
is not freed. `uzfs_zinfo_drop_refcnt` on it is not rejected: the call returns,
the refcount is -1 and the handle is still not freed. -/
theorem drop_at_zero_not_rejected :
    deref (kmem_zalloc World.empty).2 0 = .ok zvol_info_t.zeroed ∧
    zvol_info_t.zeroed.refcnt = 0 ∧
    uzfs_zinfo_drop_refcnt 0 false (kmem_zalloc World.empty).2
      = .ok ⟨[⟨⟨ZVOL_INFO_STATE_ONLINE, [], 0, -1, 0, 0⟩, false⟩], [], []⟩ ∧
    uzfs_zinfo_drop_refcnt 0 true (kmem_zalloc World.empty).2
      = .ok ⟨[⟨⟨ZVOL_INFO_STATE_ONLINE, [], 0, -1, 0, 0⟩, false⟩], [], []⟩ := by
  refine ⟨by decide, by decide, by decide, by decide⟩

/-- C10 (amended): `uzfs_zinfo_drop_refcnt` has no check of the count. On a live
handle whose refcount is `n` it always returns; afterwards the refcount is
`n - 1`, the handle is freed exactly when `n - 1 = 0`, its other fields, the other
handles, the list and the events are unchanged. When `n` is 0 the count becomes
-1 and the handle stays allocated. -/
theorem drop_refcnt_unchecked (w : World) (p : Ptr) (zi : zvol_info_t) (locked : Bool)
    (hl : Live w p zi) :
    ∃ w', uzfs_zinfo_drop_refcnt p locked w = .ok w' ∧
      w'.heap[p]? = some ⟨{ zi with refcnt := zi.refcnt - 1 }, decide (zi.refcnt - 1 = 0)⟩ ∧
      (∀ q, q ≠ p → w'.heap[q]? = w.heap[q]?) ∧
      w'.zvol_list = w.zvol_list ∧ w'.events = w.events ∧
      (zi.refcnt = 0 → Live w' p { zi with refcnt := -1 }) := by
  have hlt := live_lt hl
  refine ⟨_, drop_refcnt_live hl locked, ?_, ?_, rfl, rfl, ?_⟩
  · simp [List.getElem?_set, hlt]
  · intro q hq
    simp [List.getElem?_set, Ne.symm hq]
  · intro h0
    simp [Live, List.getElem?_set, hlt, h0]

/-- Witness of C10 (amended): the drop on a freshly allocated handle. -/
theorem drop_refcnt_unchecked_witness :
    Live (kmem_zalloc World.empty).2 0 zvol_info_t.zeroed ∧
    ∃ w', uzfs_zinfo_drop_refcnt 0 false (kmem_zalloc World.empty).2 = .ok w' ∧
      w'.heap[0]? = some ⟨{ zvol_info_t.zeroed with refcnt := zvol_info_t.zeroed.refcnt - 1 },
        decide (zvol_info_t.zeroed.refcnt - 1 = 0)⟩ ∧
      (∀ q, q ≠ 0 → w'.heap[q]? = (kmem_zalloc World.empty).2.heap[q]?) ∧
      w'.zvol_list = (kmem_zalloc World.empty).2.zvol_list ∧
      w'.events = (kmem_zalloc World.empty).2.events ∧
      (zvol_info_t.zeroed.refcnt = 0 → Live w' 0 { zvol_info_t.zeroed with refcnt := -1 }) :=
  ⟨by decide, drop_refcnt_unchecked (kmem_zalloc World.empty).2 0 zvol_info_t.zeroed false
    (by decide)⟩

/-! ## Removal from the registry -/

theorem is_live_iff {w : World} {q : Ptr} : is_live w q = true ↔ ∃ zi, Live w q zi := by
  unfold is_live Live
  cases h : w.heap[q]? with
  | none => simp
  | some s =>
    obtain ⟨o, f⟩ := s
    cases f <;> simp

theorem WF.live {w : World} (h : WF w) {q : Ptr} (hq : q ∈ w.zvol_list) :
    ∃ zi, Live w q zi := is_live_iff.1 (h.2 q hq)

theorem name_of_live {w : World} {p : Ptr} {zi : zvol_info_t} (h : Live w p zi) :
    name_of w p = zi.name := by
  unfold Live at h
  simp [name_of, h]

theorem remove_live {w : World} {p : Ptr} {zi : zvol_info_t} (hm : p ∈ w.zvol_list)
    (hl : Live w p zi) :
    uzfs_remove_zinfo_list p w = .ok
      { heap := w.heap.set p (Slot.removed ⟨zi, false⟩),
        zvol_list := w.zvol_list.erase p,
        events := w.events ++ (if zi.io_ack_waiting ≠ 0 then [Event.cond_signal p] else []) } := by
  have hlt := live_lt hl
  have hl1 : Live { w with zvol_list := w.zvol_list.erase p } p zi := hl
  unfold uzfs_remove_zinfo_list
  simp only [hm, if_true, deref_of_live hl1]
  by_cases hio : zi.io_ack_waiting ≠ 0
  · rw [if_pos hio, if_pos hio]
    rw [@drop_refcnt_live _ p { zi with state := ZVOL_INFO_STATE_OFFLINE }
      (by simp [Live, store, List.getElem?_set, hlt])]
    simp [Slot.removed, store]
  · rw [if_neg hio, if_neg hio]
    rw [@drop_refcnt_live _ p { zi with state := ZVOL_INFO_STATE_OFFLINE }
      (by simp [Live, store, List.getElem?_set, hlt])]
    simp [Slot.removed, store]

theorem destroy_cond_eq (zname name : CStr) :
    destroy_cond zname name = .ok (decide (DestroyFound zname name)) := by
  unfold destroy_cond DestroyFound
  by_cases h1 : zname = name
  · simp [h1]
  · simp only [h1, if_false, false_or]
    by_cases h2 : zname.take name.length = name.take name.length
    · simp only [strncmp_eq, h2, decide_True, if_true]
      rw [List.take_length] at h2
      have hlen : name.length ≤ zname.length := by
        have := congrArg List.length h2
        simp at this
        omega
      have hsplit : zname = name ++ zname.drop name.length := by
        conv_lhs => rw [← List.take_append_drop name.length zname, h2]
      have hc : char_at zname (name.length : Int)
          = .ok (zname[name.length]?.getD (Char.ofNat 0)) := by
        unfold char_at
        have : ¬ ((name.length : Int) < 0 ∨ (zname.length : Int) < (name.length : Int)) := by
          omega
        simp only [this, if_false, Int.toNat_ofNat]
      simp only [hc]
      congr 1
      cases hd : zname.drop name.length with
      | nil =>
        rw [hd] at hsplit
        simp at hsplit
        exact absurd hsplit h1
      | cons c rest =>
        rw [hd] at hsplit
        have hget : zname[name.length]? = some c := by
          rw [hsplit, List.getElem?_append_right (le_refl _)]
          simp
        have key : ∀ x : Char, (name ++ [x]) <+: zname ↔ c = x := by
          intro x
          constructor
          · rintro ⟨t, ht⟩
            rw [hsplit] at ht
            simp at ht
            exact ht.1.symm
          · intro hx
            subst hx
            exact ⟨rest, by rw [hsplit]; simp⟩
        simp [hget, key]
    · simp only [strncmp_eq, h2, decide_False]
      have key : ∀ x : Char, ¬ (name ++ [x]) <+: zname := by
        rintro x ⟨t, ht⟩
        apply h2
        rw [← ht]
        simp [List.take_append_eq_append_take]
      simp [key]

theorem name_of_after_remove {w w1 : World} {p : Ptr} {zi : zvol_info_t} (hl : Live w p zi)
    (hw1 : w1.heap = w.heap.set p (Slot.removed ⟨zi, false⟩)) (q : Ptr) :
    name_of w1 q = name_of w q := by
  have hlt := live_lt hl
  unfold name_of
  rw [hw1]
  by_cases hq : p = q
  · subst hq
    unfold Live at hl
    simp [List.getElem?_set, hlt, hl, Slot.removed]
  · simp [List.getElem?_set, hq]

theorem live_after_remove {w w1 : World} {p q : Ptr} {zi zj : zvol_info_t}
    (hw1 : w1.heap = w.heap.set p (Slot.removed ⟨zi, false⟩)) (hq : q ≠ p)
    (hl : Live w q zj) : Live w1 q zj := by
  unfold Live at *
  rw [hw1]
  simp [List.getElem?_set, Ne.symm hq, hl]

theorem destroy_all_loop_effect (spa : CStr) (l : List Ptr) :
    ∀ w : World, w.zvol_list.Nodup → l.Nodup →
      (∀ q ∈ l, q ∈ w.zvol_list ∧ ∃ zi, Live w q zi) →
      ∃ w', destroy_all_loop spa l w = .ok w' ∧
        w'.zvol_list = w.zvol_list.filter
          (fun q => !(decide (q ∈ l) && strncmp_eq spa (name_of w q) spa.length)) ∧
        w'.heap.length = w.heap.length ∧
        ∀ q, w'.heap[q]? =
          if q ∈ l ∧ strncmp_eq spa (name_of w q) spa.length = true
          then (w.heap[q]?).map Slot.removed else w.heap[q]? := by
  induction l with
  | nil =>
    intro w _ _ _
    exact ⟨w, rfl, by simp, rfl, by simp⟩
  | cons p l ih =>
    intro w hnd hl hall
    obtain ⟨hpm, zi, hp⟩ := hall p (List.mem_cons_self _ _)
    have hpl : p ∉ l := (List.nodup_cons.1 hl).1
    have hlnd : l.Nodup := (List.nodup_cons.1 hl).2
    have hlt := live_lt hp
    have hname : name_of w p = zi.name := name_of_live hp
    unfold destroy_all_loop
    simp only [deref_of_live hp]
    by_cases hm : strncmp_eq spa zi.name spa.length = true
    · simp only [hm, if_true, remove_live hpm hp]
      obtain ⟨w', hrun, hlist, hlen, hheap⟩ := ih
        (uzfs_close_dataset zi.zv
          { heap := w.heap.set p (Slot.removed ⟨zi, false⟩),
            zvol_list := w.zvol_list.erase p,
            events := w.events ++
              (if zi.io_ack_waiting ≠ 0 then [Event.cond_signal p] else []) })
        (hnd.erase p) hlnd
        (by
          intro q hq
          have hqp : q ≠ p := fun h => hpl (h ▸ hq)
          obtain ⟨hqm, zj, hqj⟩ := hall q (List.mem_cons_of_mem _ hq)
          exact ⟨(List.mem_erase_of_ne hqp).2 hqm, zj, live_after_remove rfl hqp hqj⟩)
      have hn : ∀ q, name_of (uzfs_close_dataset zi.zv
          { heap := w.heap.set p (Slot.removed ⟨zi, false⟩),
            zvol_list := w.zvol_list.erase p,
            events := w.events ++
              (if zi.io_ack_waiting ≠ 0 then [Event.cond_signal p] else []) }) q
          = name_of w q := fun q => name_of_after_remove hp rfl q
      simp only [hn] at hlist hheap
      refine ⟨w', hrun, ?_, ?_, ?_⟩
      · rw [hlist]
        simp only [uzfs_close_dataset]
        rw [hnd.erase_eq_filter, List.filter_filter]
        apply List.filter_congr
        intro q _
        by_cases hqp : q = p
        · subst hqp
          simp [hname, hm]
        · simp [hqp]
      · rw [hlen]
        simp [uzfs_close_dataset]
      · intro q
        rw [hheap q]
        by_cases hqp : q = p
        · subst hqp
          unfold Live at hp
          simp [hpl, hname, hm, uzfs_close_dataset, List.getElem?_set, hlt, hp]
        · simp [hqp, uzfs_close_dataset, List.getElem?_set, Ne.symm hqp]
    · simp only [hm, if_false]
      obtain ⟨w', hrun, hlist, hlen, hheap⟩ := ih w hnd hlnd
        (fun q hq => hall q (List.mem_cons_of_mem _ hq))
      refine ⟨w', hrun, ?_, hlen, ?_⟩
      · rw [hlist]
        apply List.filter_congr
        intro q _
        by_cases hqp : q = p
        · subst hqp
          simp [hname, hm, hpl]
        · simp [hqp]
      · intro q
        rw [hheap q]
        by_cases hqp : q = p
        · subst hqp
          simp [hname, hm, hpl]
        · simp [hqp]

theorem destroy_one_loop_effect (name : CStr) (w : World) (l : List Ptr)
    (hall : ∀ q ∈ l, q ∈ w.zvol_list ∧ ∃ zi, Live w q zi) :
    (l.find? (fun q => decide (DestroyFound (name_of w q) name)) = none ∧
      destroy_one_loop name l w = .ok w) ∨
    (∃ p zi, l.find? (fun q => decide (DestroyFound (name_of w q) name)) = some p ∧
      p ∈ l ∧ Live w p zi ∧
      destroy_one_loop name l w = .ok (uzfs_close_dataset zi.zv
        { heap := w.heap.set p (Slot.removed ⟨zi, false⟩),
          zvol_list := w.zvol_list.erase p,
          events := w.events ++
            (if zi.io_ack_waiting ≠ 0 then [Event.cond_signal p] else []) })) := by
  induction l with
  | nil => exact Or.inl ⟨rfl, rfl⟩
  | cons p l ih =>
    obtain ⟨hpm, zi, hp⟩ := hall p (List.mem_cons_self _ _)
    have hname : name_of w p = zi.name := name_of_live hp
    unfold destroy_one_loop
    simp only [deref_of_live hp, destroy_cond_eq]
    by_cases hm : DestroyFound zi.name name
    · right
      refine ⟨p, zi, ?_, List.mem_cons_self _ _, hp, ?_⟩
      · simp [List.find?_cons, hname, hm]
      · simp [hm, remove_live hpm hp]
    · rcases ih (fun q hq => hall q (List.mem_cons_of_mem _ hq)) with
        ⟨hf, hrun⟩ | ⟨p', zi', hf, hpl, hp', hrun⟩
      · left
        refine ⟨?_, ?_⟩
        · simp [List.find?_cons, hname, hm, hf]
        · simp [hm, hrun]
      · right
        refine ⟨p', zi', ?_, List.mem_cons_of_mem _ hpl, hp', ?_⟩
        · simp [List.find?_cons, hname, hm, hf]
        · simp [hm, hrun]

/-- The effect of `uzfs_zinfo_destroy` on a well-formed registry: the call
returns 0, the list afterwards is a sublist of the list before, and a heap slot
changes exactly when its handle was taken off the list, in the way
`uzfs_remove_zinfo_list` changes it. -/
theorem destroy_effect (name : Option CStr) (spa : CStr) (w : World) (hwf : WF w) :
    ∃ w', uzfs_zinfo_destroy name spa w = .ok (0, w') ∧
      w'.zvol_list.Sublist w.zvol_list ∧
      w'.heap.length = w.heap.length ∧
      ∀ q, w'.heap[q]? =
        if q ∈ w.zvol_list ∧ q ∉ w'.zvol_list
        then (w.heap[q]?).map Slot.removed else w.heap[q]? := by
  have hnd := hwf.1
  have hlive : ∀ q ∈ w.zvol_list, ∃ zi, Live w q zi := fun q hq => hwf.live hq
  cases name with
  | none =>
    obtain ⟨w', hrun, hlist, hlen, hheap⟩ := destroy_all_loop_effect spa w.zvol_list w hnd hnd
      (fun q hq => ⟨hq, hlive q hq⟩)
    refine ⟨w', by simp [uzfs_zinfo_destroy, hrun], ?_, hlen, ?_⟩
    · rw [hlist]
      exact List.filter_sublist _
    · intro q
      rw [hheap q, hlist]
      by_cases hq : q ∈ w.zvol_list
      · by_cases hm : strncmp_eq spa (name_of w q) spa.length = true
        · simp [hq, hm, List.mem_filter]
        · simp [hq, hm, List.mem_filter]
      · simp [hq]
  | some n =>
    rcases destroy_one_loop_effect n w w.zvol_list (fun q hq => ⟨hq, hlive q hq⟩) with
      ⟨-, hrun⟩ | ⟨p, zi, -, hpl, hp, hrun⟩
    · exact ⟨w, by simp [uzfs_zinfo_destroy, hrun], List.Sublist.refl _, rfl, by simp⟩
    · have hlt := live_lt hp
      refine ⟨uzfs_close_dataset zi.zv
        { heap := w.heap.set p (Slot.removed ⟨zi, false⟩),
          zvol_list := w.zvol_list.erase p,
          events := w.events ++
            (if zi.io_ack_waiting ≠ 0 then [Event.cond_signal p] else []) },
        by simp only [uzfs_zinfo_destroy, hrun], ?_, ?_, ?_⟩
      · exact List.erase_sublist _ _
      · simp [uzfs_close_dataset]
      · intro q
        by_cases hqp : q = p
        · subst hqp
          unfold Live at hp
          simp [uzfs_close_dataset, List.getElem?_set, hlt, hp, hpl, hnd.mem_erase_iff]
        · simp [uzfs_close_dataset, List.getElem?_set, Ne.symm hqp, hnd.mem_erase_iff, hqp]

/-! ## C7: the handle that a destroy removes -/

theorem run_drops (p : Ptr) (ls : List Bool) :
    ∀ (w : World) (zi : zvol_info_t), Live w p zi → 1 ≤ zi.refcnt →
      (ls.length : Int) ≤ zi.refcnt →
      run_ref_ops p (ls.map RefOp.drop) w = .ok { w with
        heap := w.heap.set p ⟨{ zi with refcnt := zi.refcnt - ls.length },
          decide ((ls.length : Int) = zi.refcnt)⟩ } := by
  induction ls with
  | nil =>
    intro w zi hl h1 _
    have hlt := live_lt hl
    have hne : ¬ ((0 : Int) = zi.refcnt) := by omega
    have hs : w.heap.set p ⟨zi, false⟩ = w.heap := by
      apply List.ext_getElem?
      intro i
      by_cases hi : p = i
      · subst hi
        simp [List.getElem?_set, hlt]
        exact ((List.getElem?_eq_some.1 hl).2).symm
      · simp [List.getElem?_set, hi]
    simp [run_ref_ops, hne, hs]
  | cons b ls ih =>
    intro w zi hl h1 hlen
    have hlt := live_lt hl
    simp only [List.map_cons, run_ref_ops, drop_refcnt_live hl]
    simp only [List.length_cons, Nat.cast_add, Nat.cast_one] at hlen ⊢
    by_cases hz : zi.refcnt - 1 = 0
    · have hnil : ls = [] := by
        apply List.eq_nil_of_length_eq_zero
        omega
      subst hnil
      have : (0 : Int) + 1 = zi.refcnt := by omega
      simp [run_ref_ops, hz, this]
    · have hl2 : Live { w with
            heap := w.heap.set p ⟨{ zi with refcnt := zi.refcnt - 1 }, decide (zi.refcnt - 1 = 0)⟩ }
          p { zi with refcnt := zi.refcnt - 1 } := by
        simp [Live, List.getElem?_set, hlt, hz]
      rw [ih _ _ hl2 (by simp; omega) (by simp; omega)]
      have e1 : zi.refcnt - 1 - (ls.length : Int) = zi.refcnt - ((ls.length : Int) + 1) := by
        omega
      have e2 : decide ((ls.length : Int) = zi.refcnt - 1)
          = decide ((ls.length : Int) + 1 = zi.refcnt) := by
        apply decide_eq_decide.2
        constructor <;> intro h <;> omega
      simp [e1, e2]

/-- C7: on a well-formed registry `uzfs_zinfo_destroy` returns 0, with or without
a name. Take a handle that was on the list before and is not on it afterwards,
with refcount `r` before the call. If `r` is at least 2, the handle is not freed
afterwards, its state is `ZVOL_INFO_STATE_OFFLINE`, its refcount is `r - 1`, and
its name and other fields are unchanged; of the drops that follow, the first
`r - 2` leave it allocated and the one that brings the count to 0 frees it. If
`r` is 1, the destroy has freed the handle. -/
theorem destroy_removed_handle (name : Option CStr) (spa : CStr) (w : World) (hwf : WF w) :
    ∃ w', uzfs_zinfo_destroy name spa w = .ok (0, w') ∧
      ∀ p zi, p ∈ w.zvol_list → p ∉ w'.zvol_list → Live w p zi →
        (2 ≤ zi.refcnt →
          Live w' p { zi with state := ZVOL_INFO_STATE_OFFLINE, refcnt := zi.refcnt - 1 } ∧
          ∀ ls : List Bool, (ls.length : Int) ≤ zi.refcnt - 1 →
            ∃ w'', run_ref_ops p (ls.map RefOp.drop) w' = .ok w'' ∧
              w''.heap[p]? = some
                ⟨{ zi with state := ZVOL_INFO_STATE_OFFLINE,
                           refcnt := zi.refcnt - 1 - ls.length },
                  decide ((ls.length : Int) = zi.refcnt - 1)⟩) ∧
        (zi.refcnt = 1 →
          w'.heap[p]? = some
            ⟨{ zi with state := ZVOL_INFO_STATE_OFFLINE, refcnt := 0 }, true⟩) := by
  obtain ⟨w', hrun, -, hlen, hheap⟩ := destroy_effect name spa w hwf
  refine ⟨w', hrun, ?_⟩
  intro p zi hin hout hl
  have hslot : w'.heap[p]? = some (Slot.removed ⟨zi, false⟩) := by
    unfold Live at hl
    rw [hheap p]
    simp [hin, hout, hl]
  constructor
  · intro h2
    have hne : ¬ (zi.refcnt - 1 = 0) := by omega
    have hl' : Live w' p
        { zi with state := ZVOL_INFO_STATE_OFFLINE, refcnt := zi.refcnt - 1 } := by
      unfold Live
      rw [hslot]
      simp [Slot.removed, hne]
    refine ⟨hl', ?_⟩
    intro ls hls
    have hlt := live_lt hl'
    refine ⟨_, run_drops p ls w' _ hl' (by simp; omega) (by simpa using hls), ?_⟩
    simp [List.getElem?_set, hlt]
  · intro h1
    rw [hslot]
    simp [Slot.removed, h1]

/-- Witness of C7: the handle "pool/vol" is destroyed while a borrower holds a
reference to it; it is left offline with refcount 1, and the borrower's drop
frees it. -/
theorem destroy_removed_handle_witness :
    WF ⟨[⟨⟨ZVOL_INFO_STATE_ONLINE, "pool/vol".toList, 7, 2, 0, 0⟩, false⟩], [0], []⟩ ∧
    uzfs_zinfo_destroy (some "pool/vol".toList) []
        ⟨[⟨⟨ZVOL_INFO_STATE_ONLINE, "pool/vol".toList, 7, 2, 0, 0⟩, false⟩], [0], []⟩
      = .ok (0, ⟨[⟨⟨ZVOL_INFO_STATE_OFFLINE, "pool/vol".toList, 7, 1, 0, 0⟩, false⟩], [],
          [Event.close_dataset 7]⟩) ∧
    Live ⟨[⟨⟨ZVOL_INFO_STATE_OFFLINE, "pool/vol".toList, 7, 1, 0, 0⟩, false⟩], [],
        [Event.close_dataset 7]⟩ 0
      ⟨ZVOL_INFO_STATE_OFFLINE, "pool/vol".toList, 7, 1, 0, 0⟩ := by
  refine ⟨by decide, by decide, ?_⟩
  obtain ⟨w', hrun, h⟩ := destroy_removed_handle (some "pool/vol".toList) []
    ⟨[⟨⟨ZVOL_INFO_STATE_ONLINE, "pool/vol".toList, 7, 2, 0, 0⟩, false⟩], [0], []⟩ (by decide)
  have e : uzfs_zinfo_destroy (some "pool/vol".toList) []
      ⟨[⟨⟨ZVOL_INFO_STATE_ONLINE, "pool/vol".toList, 7, 2, 0, 0⟩, false⟩], [0], []⟩
      = .ok (0, ⟨[⟨⟨ZVOL_INFO_STATE_OFFLINE, "pool/vol".toList, 7, 1, 0, 0⟩, false⟩], [],
          [Event.close_dataset 7]⟩) := by decide
  rw [e] at hrun
  injection hrun with hrun
  injection hrun with _ hrun
  subst hrun
  exact ((h 0 ⟨ZVOL_INFO_STATE_ONLINE, "pool/vol".toList, 7, 2, 0, 0⟩
    (by decide) (by decide) (by decide)).1 (by decide)).1

/-! ## C2: the reference count in reachable states -/

theorem Inv.wf {s : Sys} (h : Inv s) : WF s.w := by
  obtain ⟨hnd, hll, -, hc⟩ := h
  refine ⟨hnd, ?_⟩
  intro q hq
  have hlt := hll q hq
  have hs : s.w.heap[q]? = some (s.w.heap[q]) := List.getElem?_eq_getElem hlt
  have hf := (hc q _ hs).2
  unfold is_live
  rw [hs]
  cases hfr : (s.w.heap[q]).freed with
  | false => simp [hfr]
  | true => exact absurd hq (hf.1 hfr).1

theorem take_inv {p : Ptr} {locked : Bool} {w w' : World}
    (h : uzfs_zinfo_take_refcnt p locked w = .ok w') :
    ∃ zi, Live w p zi ∧
      w' = { w with heap := w.heap.set p ⟨{ zi with refcnt := zi.refcnt + 1 }, false⟩ } := by
  cases hd : deref w p with
  | error e => simp [uzfs_zinfo_take_refcnt, hd] at h
  | ok zi =>
    have hl := (deref_ok_iff w p zi).1 hd
    rw [take_refcnt_live hl] at h
    injection h with h
    exact ⟨zi, hl, h.symm⟩

theorem drop_inv {p : Ptr} {locked : Bool} {w w' : World}
    (h : uzfs_zinfo_drop_refcnt p locked w = .ok w') :
    ∃ zi, Live w p zi ∧
      w' = { w with
        heap := w.heap.set p ⟨{ zi with refcnt := zi.refcnt - 1 }, decide (zi.refcnt - 1 = 0)⟩ } := by
  cases hd : deref w p with
  | error e => simp [uzfs_zinfo_drop_refcnt, hd] at h
  | ok zi =>
    have hl := (deref_ok_iff w p zi).1 hd
    rw [drop_refcnt_live hl] at h
    injection h with h
    exact ⟨zi, hl, h.symm⟩

theorem inv_start : Inv Sys.start := by
  refine ⟨?_, ?_, ?_, ?_⟩ <;> simp [Sys.start, World.empty]

theorem inv_init {M : Nat} {s : Sys} {zv : Nat} {ds_name : CStr} {rc : Int} {w' : World}
    (hinv : Inv s) (h : uzfs_zinfo_init M zv ds_name s.w = .ok (rc, w')) :
    Inv ⟨w', s.held⟩ := by
  obtain ⟨hnd, hll, hhl, hc⟩ := hinv
  rw [init_eq] at h
  injection h with h
  injection h with _ h
  subst h
  have hnl : s.w.heap.length ∉ s.w.zvol_list := fun hm => absurd (hll _ hm) (lt_irrefl _)
  have hnh : s.w.heap.length ∉ s.held := fun hm => absurd (hhl _ hm) (lt_irrefl _)
  refine ⟨?_, ?_, ?_, ?_⟩
  · exact List.nodup_cons.2 ⟨hnl, hnd⟩
  · intro p hp
    simp only [List.mem_cons] at hp
    show p < (s.w.heap ++ _).length
    rw [List.length_append, List.length_singleton]
    rcases hp with hp | hp
    · subst hp
      exact Nat.lt_succ_self _
    · exact Nat.lt_succ_of_lt (hll p hp)
  · intro p hp
    show p < (s.w.heap ++ _).length
    rw [List.length_append, List.length_singleton]
    exact Nat.lt_succ_of_lt (hhl p hp)
  · intro p slot hs
    simp only at hs
    rcases Nat.lt_trichotomy p s.w.heap.length with hlt | heq | hgt
    · rw [List.getElem?_append_left hlt] at hs
      obtain ⟨h1, h2⟩ := hc p slot hs
      have hne : p ≠ s.w.heap.length := Nat.ne_of_lt hlt
      simp only [List.mem_cons, hne, false_or]
      exact ⟨h1, h2⟩
    · subst heq
      rw [List.getElem?_append_right (le_refl _)] at hs
      simp at hs
      subst hs
      simp [List.count_eq_zero_of_not_mem hnh]
    · rw [List.getElem?_eq_none (by simp; omega)] at hs
      exact absurd hs (by simp)

theorem inv_bump {s : Sys} {p : Ptr} {zi : zvol_info_t} (hinv : Inv s) (hl : Live s.w p zi) :
    Inv ⟨{ s.w with heap := s.w.heap.set p ⟨{ zi with refcnt := zi.refcnt + 1 }, false⟩ },
      p :: s.held⟩ := by
  obtain ⟨hnd, hll, hhl, hc⟩ := hinv
  have hlt := live_lt hl
  refine ⟨hnd, ?_, ?_, ?_⟩
  · intro q hq
    show q < (s.w.heap.set p _).length
    rw [List.length_set]
    exact hll q hq
  · intro q hq
    show q < (s.w.heap.set p _).length
    rw [List.length_set]
    rcases List.mem_cons.1 hq with h | h
    · exact h ▸ hlt
    · exact hhl q h
  · intro q slot hs
    have hs' : (s.w.heap.set p ⟨{ zi with refcnt := zi.refcnt + 1 }, false⟩)[q]? = some slot := hs
    by_cases hqp : p = q
    · subst hqp
      simp only [List.getElem?_set, hlt, if_true] at hs'
      injection hs' with hs'
      subst hs'
      obtain ⟨h1, -⟩ := hc p _ hl
      simp only at h1
      simp only [List.count_cons_self, List.mem_cons, true_or, not_true, and_false, iff_false]
      refine ⟨?_, by simp⟩
      push_cast
      omega
    · simp only [List.getElem?_set, hqp, if_false] at hs'
      obtain ⟨h1, h2⟩ := hc q slot hs'
      have hne : q ≠ p := fun h => hqp h.symm
      simp only [List.count_cons_of_ne hne, List.mem_cons, hne, false_or]
      exact ⟨h1, h2⟩

theorem inv_drop {s : Sys} {p : Ptr} {zi : zvol_info_t} (hinv : Inv s) (hp : p ∈ s.held)
    (hl : Live s.w p zi) :
    Inv ⟨{ s.w with
           heap := s.w.heap.set p ⟨{ zi with refcnt := zi.refcnt - 1 }, decide (zi.refcnt - 1 = 0)⟩ },
      s.held.erase p⟩ := by
  obtain ⟨hnd, hll, hhl, hc⟩ := hinv
  have hlt := live_lt hl
  have hpos : 0 < s.held.count p := List.count_pos_iff.2 hp
  refine ⟨hnd, ?_, ?_, ?_⟩
  · intro q hq
    show q < (s.w.heap.set p _).length
    rw [List.length_set]
    exact hll q hq
  · intro q hq
    show q < (s.w.heap.set p _).length
    rw [List.length_set]
    exact hhl q (List.mem_of_mem_erase hq)
  · intro q slot hs
    have hs' : (s.w.heap.set p
        ⟨{ zi with refcnt := zi.refcnt - 1 }, decide (zi.refcnt - 1 = 0)⟩)[q]? = some slot := hs
    by_cases hqp : p = q
    · subst hqp
      simp only [List.getElem?_set, hlt, if_true] at hs'
      injection hs' with hs'
      subst hs'
      obtain ⟨h1, -⟩ := hc p _ hl
      simp only at h1
      have hce : (s.held.erase p).count p = s.held.count p - 1 := List.count_erase_self _ _
      have hmem : p ∉ s.held.erase p ↔ s.held.count p = 1 := by
        rw [← List.count_eq_zero, hce]
        omega
      simp only [hce, hmem, decide_eq_true_eq]
      by_cases hin : p ∈ s.w.zvol_list
      · simp only [hin, if_true] at h1 ⊢
        refine ⟨by omega, ?_⟩
        constructor
        · intro h
          omega
        · intro h
          exact absurd trivial h.1
      · simp only [hin, if_false] at h1 ⊢
        refine ⟨by omega, ?_⟩
        constructor
        · intro h
          exact ⟨not_false, by omega⟩
        · intro h
          omega
    · simp only [List.getElem?_set, hqp, if_false] at hs'
      obtain ⟨h1, h2⟩ := hc q slot hs'
      have hne : q ≠ p := fun h => hqp h.symm
      rw [List.count_erase_of_ne hne, List.mem_erase_of_ne hne]
      exact ⟨h1, h2⟩

theorem inv_destroy {s : Sys} {name : Option CStr} {spa : CStr} {rc : Int} {w' : World}
    (hinv : Inv s) (h : uzfs_zinfo_destroy name spa s.w = .ok (rc, w')) :
    Inv ⟨w', s.held⟩ := by
  obtain ⟨w1, hrun, hsub, hlen, hheap⟩ := destroy_effect name spa s.w hinv.wf
  rw [hrun] at h
  injection h with h
  injection h with _ h
  subst h
  obtain ⟨hnd, hll, hhl, hc⟩ := hinv
  refine ⟨hsub.nodup hnd, ?_, ?_, ?_⟩
  · intro q hq
    show q < w1.heap.length
    rw [hlen]
    exact hll q (hsub.subset hq)
  · intro q hq
    show q < w1.heap.length
    rw [hlen]
    exact hhl q hq
  · intro q slot hs
    have hs' : w1.heap[q]? = some slot := hs
    rw [hheap q] at hs'
    show slot.obj.refcnt = (if q ∈ w1.zvol_list then 1 else 0) + (s.held.count q : Int) ∧
      (slot.freed = true ↔ q ∉ w1.zvol_list ∧ q ∉ s.held)
    by_cases hrem : q ∈ s.w.zvol_list ∧ q ∉ w1.zvol_list
    · rw [if_pos hrem] at hs'
      cases hq : s.w.heap[q]? with
      | none => simp [hq] at hs'
      | some slot0 =>
        rw [hq] at hs'
        simp only [Option.map_some'] at hs'
        injection hs' with hs'
        subst hs'
        obtain ⟨h1, -⟩ := hc q slot0 hq
        simp only [hrem.1, if_true] at h1
        simp only [Slot.removed, hrem.2, if_false, not_false_eq_true, true_and,
          decide_eq_true_eq]
        refine ⟨by omega, ?_⟩
        rw [← List.count_eq_zero]
        constructor <;> intro h <;> omega
    · rw [if_neg hrem] at hs'
      obtain ⟨h1, h2⟩ := hc q slot hs'
      have hiff : q ∈ w1.zvol_list ↔ q ∈ s.w.zvol_list := by
        constructor
        · exact fun h => hsub.subset h
        · intro h
          by_contra hn
          exact hrem ⟨h, hn⟩
      simp only [hiff]
      exact ⟨h1, h2⟩

theorem inv_step {M : Nat} {s s' : Sys} (hinv : Inv s) (h : Step M s s') : Inv s' := by
  cases h with
  | init zv ds_name rc w' h => exact inv_init hinv h
  | lookup_hit name p w' h =>
    rcases lookup_inv h with ⟨hr, -⟩ | ⟨q, zi, hr, -, hl, -, hw⟩
    · exact absurd hr (by simp)
    · injection hr with hr
      subst hr
      subst hw
      exact inv_bump hinv hl
  | lookup_miss name w' h =>
    rcases lookup_inv h with ⟨-, hw⟩ | ⟨q, zi, hr, -, -, -, -⟩
    · subst hw
      exact hinv
    · exact absurd hr (by simp)
  | take p locked w' h =>
    obtain ⟨zi, hl, hw⟩ := take_inv h
    subst hw
    exact inv_bump hinv hl
  | drop p locked w' hp h =>
    obtain ⟨zi, hl, hw⟩ := drop_inv h
    subst hw
    exact inv_drop hinv hp hl
  | destroy name spa rc w' h => exact inv_destroy hinv h

theorem inv_reachable {M : Nat} {s : Sys} (h : Reachable M s) : Inv s := by
  induction h with
  | start => exact inv_start
  | step s s' _ hstep ih => exact inv_step ih hstep

/-- C2: in every state reachable from the empty registry by `uzfs_zinfo_init`,
`uzfs_zinfo_lookup`, `uzfs_zinfo_take_refcnt`, `uzfs_zinfo_drop_refcnt` (of a held
reference) and `uzfs_zinfo_destroy`, every pointer on the list and every pointer
a borrower holds is to an allocated handle, and for every allocated handle the
refcount is 1 if it is on the list and 0 otherwise, plus the number of held
references to it; the handle is freed exactly when that sum is 0; so it is not
freed while it is on the list, nor while a borrower holds a reference to it. -/
theorem refcount_invariant (MAXNAMELEN : Nat) (s : Sys) (h : Reachable MAXNAMELEN s) :
    (∀ p, p ∈ s.w.zvol_list ∨ p ∈ s.held → p < s.w.heap.length) ∧
    ∀ p slot, s.w.heap[p]? = some slot →
      slot.obj.refcnt = (if p ∈ s.w.zvol_list then 1 else 0) + (s.held.count p : Int) ∧
      (slot.freed = true ↔
        (if p ∈ s.w.zvol_list then 1 else 0) + (s.held.count p : Int) = 0) ∧
      (p ∈ s.w.zvol_list → slot.freed = false) ∧
      (p ∈ s.held → slot.freed = false) := by
  obtain ⟨-, hll, hhl, hc⟩ := inv_reachable h
  refine ⟨fun p hp => hp.elim (hll p) (hhl p), ?_⟩
  intro p slot hs
  obtain ⟨h1, h2⟩ := hc p slot hs
  have hz : (if p ∈ s.w.zvol_list then (1 : Int) else 0) + (s.held.count p : Int) = 0 ↔
      p ∉ s.w.zvol_list ∧ p ∉ s.held := by
    have hcz : p ∉ s.held ↔ s.held.count p = 0 := List.count_eq_zero.symm
    rw [hcz]
    by_cases hin : p ∈ s.w.zvol_list
    · simp only [hin, if_true, not_true, false_and, iff_false]
      omega
    · simp only [hin, if_false, not_false_eq_true, true_and]
      omega
  refine ⟨h1, h2.trans hz.symm, ?_, ?_⟩
  · intro hin
    cases hf : slot.freed with
    | false => rfl
    | true => exact absurd hin (h2.1 hf).1
  · intro hin
    cases hf : slot.freed with
    | false => rfl
    | true => exact absurd hin (h2.1 hf).2

/-- Witness of C2: a handle is created, looked up by a borrower, and destroyed
while the borrower holds its reference. -/
theorem refcount_invariant_witness :
    Reachable 256
      ⟨⟨[⟨⟨ZVOL_INFO_STATE_OFFLINE, "pool/vol".toList, 7, 1, 0, 0⟩, false⟩], [],
        [Event.close_dataset 7]⟩, [0]⟩ ∧
    (1 : Int) = (if (0 : Ptr) ∈ ([] : List Ptr) then 1 else 0) + (([0] : List Ptr).count 0 : Int) :=
  have hr : Reachable 256
      ⟨⟨[⟨⟨ZVOL_INFO_STATE_OFFLINE, "pool/vol".toList, 7, 1, 0, 0⟩, false⟩], [],
        [Event.close_dataset 7]⟩, [0]⟩ :=
    Reachable.step _ _
      (Reachable.step _ _
        (Reachable.step _ _ Reachable.start
          (Step.init Sys.start 7 "pool/vol".toList 0
            ⟨[⟨⟨ZVOL_INFO_STATE_ONLINE, "pool/vol".toList, 7, 1, 0, 0⟩, false⟩], [0], []⟩
            (by decide)))
        (Step.lookup_hit _ (some "vol".toList) 0
          ⟨[⟨⟨ZVOL_INFO_STATE_ONLINE, "pool/vol".toList, 7, 2, 0, 0⟩, false⟩], [0], []⟩
          (by decide)))
      (Step.destroy _ (some "pool/vol".toList) [] 0
        ⟨[⟨⟨ZVOL_INFO_STATE_OFFLINE, "pool/vol".toList, 7, 1, 0, 0⟩, false⟩], [],
          [Event.close_dataset 7]⟩
        (by decide))
  ⟨hr, ((refcount_invariant 256 _ hr).2 0
    ⟨⟨ZVOL_INFO_STATE_OFFLINE, "pool/vol".toList, 7, 1, 0, 0⟩, false⟩ rfl).1⟩

/-! ## The matching rule of the lookup -/

theorem lookup_cond_short {zname n : CStr} (hne : zname ≠ n) (hlen : zname.length < n.length) :
    lookup_cond zname (some n) = .ok false := by
  have h : (zname.length : Int) - (n.length : Int) < 0 := by omega
  simp [lookup_cond, hne, h]

theorem nameFound_length {zname n : CStr} (h : NameFound zname n) : n.length ≤ zname.length := by
  rcases h with h | ⟨t, ht⟩
  · rw [h]
  · have := congrArg List.length ht
    simp at this
    omega

theorem lookup_cond_long {zname n : CStr} (hlen : n.length ≤ zname.length) :
    lookup_cond zname (some n) = .ok (decide (NameFound zname n)) := by
  unfold NameFound
  by_cases h1 : zname = n
  · simp [lookup_cond, h1]
  · have hp : ((zname.length : Int) - (n.length : Int)).toNat = zname.length - n.length := by
      omega
    have hb : ¬ ((zname.length : Int) - (n.length : Int) < 0 ∨
        (zname.length : Int) < (zname.length : Int) - (n.length : Int)) := by omega
    have hneg : ¬ ((zname.length : Int) - (n.length : Int) < 0) := by omega
    have hb2 : ¬ ((zname.length : Int) < (zname.length : Int) - (n.length : Int)) := by omega
    simp only [lookup_cond, h1, hneg, if_false, strcmp_at, hb, hb2, hp, false_or]
    by_cases h2 : zname.drop (zname.length - n.length) = n
    · have hlt : n.length < zname.length := by
        rcases Nat.lt_or_ge n.length zname.length with h | h
        · exact h
        · exfalso
          apply h1
          have h0 : zname.length - n.length = 0 := by omega
          rw [h0] at h2
          simpa using h2
      have hp1 : ((zname.length : Int) - (n.length : Int) - 1).toNat
          = zname.length - n.length - 1 := by omega
      have hb1 : ¬ ((zname.length : Int) - (n.length : Int) - 1 < 0 ∨
          (zname.length : Int) < (zname.length : Int) - (n.length : Int) - 1) := by omega
      simp only [h2, decide_True, char_at, hb1, if_false, hp1]
      have hk : zname.length - n.length - 1 < zname.length := by omega
      have hget : zname[zname.length - n.length - 1]? = some (zname[zname.length - n.length - 1]) :=
        List.getElem?_eq_getElem hk
      have hsplit : zname = zname.take (zname.length - n.length - 1) ++
          zname[zname.length - n.length - 1] :: n := by
        have hd : zname.drop (zname.length - n.length - 1)
            = zname[zname.length - n.length - 1] :: zname.drop (zname.length - n.length - 1 + 1) :=
          List.drop_eq_getElem_cons hk
        have he : zname.length - n.length - 1 + 1 = zname.length - n.length := by omega
        rw [he, h2] at hd
        conv_lhs => rw [← List.take_append_drop (zname.length - n.length - 1) zname, hd]
      rw [hget]
      simp only [Option.getD_some]
      congr 1
      apply decide_eq_decide.2
      constructor
      · intro hc
        refine ⟨zname.take (zname.length - n.length - 1), ?_⟩
        rw [← hc]
        exact hsplit.symm
      · rintro ⟨t, ht⟩
        have hlen2 : t.length = zname.length - n.length - 1 := by
          have := congrArg List.length ht
          simp at this
          omega
        have e : zname[t.length]? = some '/' := by
          rw [← ht, List.getElem?_append_right (le_refl _)]
          simp
        rw [hlen2, hget] at e
        injection e
    · simp only [h2, decide_False]
      congr 1
      symm
      apply decide_eq_false
      rintro ⟨t, ht⟩
      apply h2
      have hlen2 : zname.length - n.length = t.length + 1 := by
        have := congrArg List.length ht
        simp at this
        omega
      rw [hlen2, ← ht]
      simp

theorem lookup_cond_ok (zname n : CStr) :
    lookup_cond zname (some n) = .ok (decide (NameFound zname n)) := by
  by_cases hlen : n.length ≤ zname.length
  · exact lookup_cond_long hlen
  · have hne : zname ≠ n := by
      intro h
      rw [h] at hlen
      exact hlen (le_refl _)
    have hnf : ¬ NameFound zname n := fun h => hlen (nameFound_length h)
    rw [lookup_cond_short hne (by omega)]
    simp [hnf]

theorem lookup_loop_find (w : World) (n : CStr) (l : List Ptr)
    (hall : ∀ q ∈ l, is_live w q = true) :
    lookup_loop w (some n) l
      = .ok (l.find? (fun q => decide (NameFound (name_of w q) n))) := by
  induction l with
  | nil => rfl
  | cons p l ih =>
    have hpl := hall p (List.mem_cons_self _ _)
    obtain ⟨zi, hp⟩ := is_live_iff.1 hpl
    have hname : name_of w p = zi.name := name_of_live hp
    unfold lookup_loop
    simp only [deref_of_live hp, lookup_cond_ok]
    by_cases hm : NameFound zi.name n
    · simp [hm, List.find?_cons, hname]
    · simp [hm, List.find?_cons, hname, ih (fun q hq => hall q (List.mem_cons_of_mem _ hq))]

theorem lookup_result (w : World) (n : CStr)
    (hall : ∀ q ∈ w.zvol_list, is_live w q = true) :
    ∃ w2, uzfs_zinfo_lookup (some n) w
      = .ok (w.zvol_list.find? (fun q => decide (NameFound (name_of w q) n)), w2) := by
  unfold uzfs_zinfo_lookup
  rw [lookup_loop_find w n w.zvol_list hall]
  cases hf : w.zvol_list.find? (fun q => decide (NameFound (name_of w q) n)) with
  | none => exact ⟨w, rfl⟩
  | some p =>
    obtain ⟨zi, hp⟩ := is_live_iff.1 (hall p (List.mem_of_find?_eq_some hf))
    simp only [take_refcnt_live hp]
    exact ⟨_, rfl⟩

theorem close_dataset_zvol_list (zv : Nat) (w : World) :
    (uzfs_close_dataset zv w).zvol_list = w.zvol_list := rfl

/-! ## C1: the handle that a lookup returns -/

/-- C1: in a registry whose list members are allocated handles,
`uzfs_zinfo_lookup` with a name returns, and what it returns is the first handle
in list order whose stored name equals `name` or ends with a slash followed by
`name`: the handles before it on the list have no such name. The result is NULL
exactly when no handle on the list has such a name. The stored name "pool/vol"
is found by "vol", the stored name "pool/xvol" is not. -/
theorem lookup_first_match (name : CStr) (w : World)
    (hlive : ∀ q ∈ w.zvol_list, is_live w q = true) :
    (∃ w', uzfs_zinfo_lookup (some name) w
      = .ok (w.zvol_list.find? (fun q => decide (NameFound (name_of w q) name)), w')) ∧
    (∀ r w', uzfs_zinfo_lookup (some name) w = .ok (r, w') →
      (r = none ↔ ∀ q ∈ w.zvol_list, ¬ NameFound (name_of w q) name) ∧
      (∀ p, r = some p → NameFound (name_of w p) name ∧
        ∃ l1 l2, w.zvol_list = l1 ++ p :: l2 ∧
          ∀ q ∈ l1, ¬ NameFound (name_of w q) name)) ∧
    NameFound "pool/vol".toList "vol".toList ∧
    ¬ NameFound "pool/xvol".toList "vol".toList := by
  obtain ⟨w2, hlook⟩ := lookup_result w name hlive
  refine ⟨⟨w2, hlook⟩, ?_, by decide, by decide⟩
  intro r w' hr
  rw [hlook] at hr
  injection hr with hr
  injection hr with hr _
  subst hr
  constructor
  · rw [List.find?_eq_none]
    simp
  · intro p hp
    obtain ⟨h1, l1, l2, h2, h3⟩ := List.find?_eq_some.1 hp
    refine ⟨by simpa using h1, l1, l2, h2, ?_⟩
    intro q hq
    simpa using h3 q hq

/-- Witness of C1: the registry holds "pool/xvol" at the head, then "a" and
"pool/vol"; the lookup of "vol" passes the first, which ends with "xvol", and
the second, which is shorter than "vol", and returns the third. -/
theorem lookup_first_match_witness :
    (∀ q ∈ ([2, 1, 0] : List Ptr), is_live
      ⟨[⟨⟨ZVOL_INFO_STATE_ONLINE, "pool/vol".toList, 7, 1, 0, 0⟩, false⟩,
        ⟨⟨ZVOL_INFO_STATE_ONLINE, "a".toList, 8, 1, 0, 0⟩, false⟩,
        ⟨⟨ZVOL_INFO_STATE_ONLINE, "pool/xvol".toList, 9, 1, 0, 0⟩, false⟩], [2, 1, 0], []⟩ q
      = true) ∧
    uzfs_zinfo_lookup (some "vol".toList)
        ⟨[⟨⟨ZVOL_INFO_STATE_ONLINE, "pool/vol".toList, 7, 1, 0, 0⟩, false⟩,
          ⟨⟨ZVOL_INFO_STATE_ONLINE, "a".toList, 8, 1, 0, 0⟩, false⟩,
          ⟨⟨ZVOL_INFO_STATE_ONLINE, "pool/xvol".toList, 9, 1, 0, 0⟩, false⟩], [2, 1, 0], []⟩
      = .ok (some 0,
        ⟨[⟨⟨ZVOL_INFO_STATE_ONLINE, "pool/vol".toList, 7, 2, 0, 0⟩, false⟩,
          ⟨⟨ZVOL_INFO_STATE_ONLINE, "a".toList, 8, 1, 0, 0⟩, false⟩,
          ⟨⟨ZVOL_INFO_STATE_ONLINE, "pool/xvol".toList, 9, 1, 0, 0⟩, false⟩], [2, 1, 0], []⟩) ∧
    NameFound (name_of
      ⟨[⟨⟨ZVOL_INFO_STATE_ONLINE, "pool/vol".toList, 7, 1, 0, 0⟩, false⟩,
        ⟨⟨ZVOL_INFO_STATE_ONLINE, "a".toList, 8, 1, 0, 0⟩, false⟩,
        ⟨⟨ZVOL_INFO_STATE_ONLINE, "pool/xvol".toList, 9, 1, 0, 0⟩, false⟩], [2, 1, 0], []⟩ 0)
      "vol".toList :=
  ⟨by decide, by decide,
    (((lookup_first_match "vol".toList
      ⟨[⟨⟨ZVOL_INFO_STATE_ONLINE, "pool/vol".toList, 7, 1, 0, 0⟩, false⟩,
        ⟨⟨ZVOL_INFO_STATE_ONLINE, "a".toList, 8, 1, 0, 0⟩, false⟩,
        ⟨⟨ZVOL_INFO_STATE_ONLINE, "pool/xvol".toList, 9, 1, 0, 0⟩, false⟩], [2, 1, 0], []⟩
      (by decide)).2.1 (some 0)
      ⟨[⟨⟨ZVOL_INFO_STATE_ONLINE, "pool/vol".toList, 7, 2, 0, 0⟩, false⟩,
        ⟨⟨ZVOL_INFO_STATE_ONLINE, "a".toList, 8, 1, 0, 0⟩, false⟩,
        ⟨⟨ZVOL_INFO_STATE_ONLINE, "pool/xvol".toList, 9, 1, 0, 0⟩, false⟩], [2, 1, 0], []⟩
      (by decide)).2 0 rfl).1⟩

/-! ## C5: a lookup after a destroy by name -/

/-- C5 (counterexample): the registry holds "pool/vol". `uzfs_zinfo_destroy` with
the name "vol" returns 0 and removes nothing, because "pool/vol" neither equals
"vol" nor begins with "vol/" or "vol@"; the lookup of "vol" that follows returns
the handle, because "pool/vol" ends with "/vol". -/
theorem destroy_vol_then_lookup_finds :
    uzfs_zinfo_destroy (some "vol".toList) []
        ⟨[⟨⟨ZVOL_INFO_STATE_ONLINE, "pool/vol".toList, 7, 1, 0, 0⟩, false⟩], [0], []⟩
      = .ok (0, ⟨[⟨⟨ZVOL_INFO_STATE_ONLINE, "pool/vol".toList, 7, 1, 0, 0⟩, false⟩], [0], []⟩) ∧
    uzfs_zinfo_lookup (some "vol".toList)
        ⟨[⟨⟨ZVOL_INFO_STATE_ONLINE, "pool/vol".toList, 7, 1, 0, 0⟩, false⟩], [0], []⟩
      = .ok (some 0,
          ⟨[⟨⟨ZVOL_INFO_STATE_ONLINE, "pool/vol".toList, 7, 2, 0, 0⟩, false⟩], [0], []⟩) := by
  constructor <;> decide

/-- C5 (amended): on a well-formed registry `uzfs_zinfo_destroy(name, spa)`
returns 0 and the lookup of `name` that follows returns; it returns NULL exactly
when every handle of the registry
whose stored name equals `name` or ends with a slash followed by `name` is the
handle the destroy removed, which is the first one in list order whose stored
name equals `name` or begins with `name` followed by a slash or an at sign. -/
theorem destroy_then_lookup (name spa : CStr) (w : World) (hwf : WF w) :
    ∃ w1, uzfs_zinfo_destroy (some name) spa w = .ok (0, w1) ∧
      ∃ r w2, uzfs_zinfo_lookup (some name) w1 = .ok (r, w2) ∧
        (r = none ↔ ∀ q ∈ w.zvol_list, NameFound (name_of w q) name →
          w.zvol_list.find? (fun q => decide (DestroyFound (name_of w q) name)) = some q) := by
  have hnd := hwf.1
  rcases destroy_one_loop_effect name w w.zvol_list (fun q hq => ⟨hq, hwf.live hq⟩) with
    ⟨hfind, hrun⟩ | ⟨p, zi, hfind, hpl, hp, hrun⟩
  · refine ⟨w, by simp only [uzfs_zinfo_destroy, hrun], ?_⟩
    obtain ⟨w2, hlook⟩ := lookup_result w name (fun q hq => hwf.2 q hq)
    refine ⟨_, w2, hlook, ?_⟩
    rw [hfind, List.find?_eq_none]
    simp
  · have hn : ∀ q, name_of (uzfs_close_dataset zi.zv
          { heap := w.heap.set p (Slot.removed ⟨zi, false⟩),
            zvol_list := w.zvol_list.erase p,
            events := w.events ++
              (if zi.io_ack_waiting ≠ 0 then [Event.cond_signal p] else []) }) q
          = name_of w q := fun q => name_of_after_remove hp rfl q
    refine ⟨uzfs_close_dataset zi.zv
        { heap := w.heap.set p (Slot.removed ⟨zi, false⟩),
          zvol_list := w.zvol_list.erase p,
          events := w.events ++
            (if zi.io_ack_waiting ≠ 0 then [Event.cond_signal p] else []) },
      by simp only [uzfs_zinfo_destroy, hrun], ?_⟩
    obtain ⟨w2, hlook⟩ := lookup_result (uzfs_close_dataset zi.zv
        { heap := w.heap.set p (Slot.removed ⟨zi, false⟩),
          zvol_list := w.zvol_list.erase p,
          events := w.events ++
            (if zi.io_ack_waiting ≠ 0 then [Event.cond_signal p] else []) }) name
      (by
        intro q hq
        have hq' : q ∈ w.zvol_list.erase p := hq
        have hqm : q ∈ w.zvol_list := List.mem_of_mem_erase hq'
        have hqp : q ≠ p := (hnd.mem_erase_iff.1 hq').1
        obtain ⟨zj, hqj⟩ := hwf.live hqm
        exact is_live_iff.2 ⟨zj, live_after_remove rfl hqp hqj⟩)
    refine ⟨_, w2, hlook, ?_⟩
    rw [hfind, List.find?_eq_none]
    simp only [hn, close_dataset_zvol_list, hnd.mem_erase_iff, decide_eq_true_eq,
      Option.some.injEq]
    constructor
    · intro h q hq hm
      by_contra hne
      exact h q ⟨fun e => hne e.symm, hq⟩ hm
    · intro h q hq hm
      exact hq.1 (h q hq.2 hm).symm

/-- Witness of C5 (amended): the registry holds "pool/vol2" at the head, then
"pool/a" and "pool/vol". The destroy of "pool/vol" passes the two handles in
front, whose names it does not match, and removes the third; the lookup of
"pool/vol" that follows walks the two handles left, one with a longer and one
with a shorter name, and returns NULL. -/
theorem destroy_then_lookup_witness :
    WF ⟨[⟨⟨ZVOL_INFO_STATE_ONLINE, "pool/vol".toList, 7, 1, 0, 0⟩, false⟩,
        ⟨⟨ZVOL_INFO_STATE_ONLINE, "pool/a".toList, 8, 1, 0, 0⟩, false⟩,
        ⟨⟨ZVOL_INFO_STATE_ONLINE, "pool/vol2".toList, 9, 1, 0, 0⟩, false⟩], [2, 1, 0], []⟩ ∧
    uzfs_zinfo_destroy (some "pool/vol".toList) []
        ⟨[⟨⟨ZVOL_INFO_STATE_ONLINE, "pool/vol".toList, 7, 1, 0, 0⟩, false⟩,
          ⟨⟨ZVOL_INFO_STATE_ONLINE, "pool/a".toList, 8, 1, 0, 0⟩, false⟩,
          ⟨⟨ZVOL_INFO_STATE_ONLINE, "pool/vol2".toList, 9, 1, 0, 0⟩, false⟩], [2, 1, 0], []⟩
      = .ok (0,
        ⟨[⟨⟨ZVOL_INFO_STATE_OFFLINE, "pool/vol".toList, 7, 0, 0, 0⟩, true⟩,
          ⟨⟨ZVOL_INFO_STATE_ONLINE, "pool/a".toList, 8, 1, 0, 0⟩, false⟩,
          ⟨⟨ZVOL_INFO_STATE_ONLINE, "pool/vol2".toList, 9, 1, 0, 0⟩, false⟩], [2, 1],
          [Event.close_dataset 7]⟩) ∧
    ∃ w1 w2, uzfs_zinfo_destroy (some "pool/vol".toList) []
        ⟨[⟨⟨ZVOL_INFO_STATE_ONLINE, "pool/vol".toList, 7, 1, 0, 0⟩, false⟩,
          ⟨⟨ZVOL_INFO_STATE_ONLINE, "pool/a".toList, 8, 1, 0, 0⟩, false⟩,
          ⟨⟨ZVOL_INFO_STATE_ONLINE, "pool/vol2".toList, 9, 1, 0, 0⟩, false⟩], [2, 1, 0], []⟩
        = .ok (0, w1) ∧
      w1.zvol_list = [2, 1] ∧
      uzfs_zinfo_lookup (some "pool/vol".toList) w1 = .ok (none, w2) := by
  refine ⟨by decide, by decide, ?_⟩
  obtain ⟨w1, hrun, r, w2, hlook, hiff⟩ := destroy_then_lookup "pool/vol".toList []
    ⟨[⟨⟨ZVOL_INFO_STATE_ONLINE, "pool/vol".toList, 7, 1, 0, 0⟩, false⟩,
      ⟨⟨ZVOL_INFO_STATE_ONLINE, "pool/a".toList, 8, 1, 0, 0⟩, false⟩,
      ⟨⟨ZVOL_INFO_STATE_ONLINE, "pool/vol2".toList, 9, 1, 0, 0⟩, false⟩], [2, 1, 0], []⟩
    (by decide)
  have hr : r = none := hiff.2 (by decide)
  subst hr
  have e : uzfs_zinfo_destroy (some "pool/vol".toList) []
      ⟨[⟨⟨ZVOL_INFO_STATE_ONLINE, "pool/vol".toList, 7, 1, 0, 0⟩, false⟩,
        ⟨⟨ZVOL_INFO_STATE_ONLINE, "pool/a".toList, 8, 1, 0, 0⟩, false⟩,
        ⟨⟨ZVOL_INFO_STATE_ONLINE, "pool/vol2".toList, 9, 1, 0, 0⟩, false⟩], [2, 1, 0], []⟩
      = .ok (0,
        ⟨[⟨⟨ZVOL_INFO_STATE_OFFLINE, "pool/vol".toList, 7, 0, 0, 0⟩, true⟩,
          ⟨⟨ZVOL_INFO_STATE_ONLINE, "pool/a".toList, 8, 1, 0, 0⟩, false⟩,
          ⟨⟨ZVOL_INFO_STATE_ONLINE, "pool/vol2".toList, 9, 1, 0, 0⟩, false⟩], [2, 1],
          [Event.close_dataset 7]⟩) := by decide
  have hw1 : w1.zvol_list = [2, 1] := by
    rw [e] at hrun
    injection hrun with hrun
    injection hrun with _ hrun
    rw [← hrun]
  exact ⟨w1, w2, hrun, hw1, hlook⟩

/-! ## C6: which handles a lookup can return -/

theorem lookup_loop_skip (w : World) (name : Option CStr) (l1 rest : List Ptr)
    (h : ∀ q ∈ l1, ∃ zi, Live w q zi ∧ lookup_cond zi.name name = .ok false) :
    lookup_loop w name (l1 ++ rest) = lookup_loop w name rest := by
  induction l1 with
  | nil => rfl
  | cons q l1 ih =>
    obtain ⟨zi, hq, hc⟩ := h q (List.mem_cons_self _ _)
    simp only [List.cons_append, lookup_loop, deref_of_live hq, hc]
    exact ih (fun q' hq' => h q' (List.mem_cons_of_mem _ hq'))

theorem step_keeps_removed {M : Nat} {s s' : Sys} (hinv : Inv s) (h : Step M s s') (p : Ptr)
    (hlt : p < s.w.heap.length) (hout : p ∉ s.w.zvol_list) :
    p < s'.w.heap.length ∧ p ∉ s'.w.zvol_list := by
  cases h with
  | init zv ds_name rc w' h =>
    rw [init_eq] at h
    injection h with h
    injection h with _ h
    subst h
    refine ⟨?_, ?_⟩
    · show p < (s.w.heap ++ _).length
      rw [List.length_append, List.length_singleton]
      exact Nat.lt_succ_of_lt hlt
    · show p ∉ s.w.heap.length :: s.w.zvol_list
      rw [List.mem_cons]
      rintro (h | h)
      · exact absurd hlt (h ▸ lt_irrefl _)
      · exact hout h
  | lookup_hit name q w' h =>
    rcases lookup_inv h with ⟨hr, -⟩ | ⟨q', zi, -, -, -, -, hw⟩
    · exact absurd hr (by simp)
    · subst hw
      exact ⟨by show p < (s.w.heap.set _ _).length; rw [List.length_set]; exact hlt, hout⟩
  | lookup_miss name w' h =>
    rcases lookup_inv h with ⟨-, hw⟩ | ⟨q', zi, hr, -, -, -, -⟩
    · subst hw
      exact ⟨hlt, hout⟩
    · exact absurd hr (by simp)
  | take q locked w' h =>
    obtain ⟨zi, -, hw⟩ := take_inv h
    subst hw
    exact ⟨by show p < (s.w.heap.set _ _).length; rw [List.length_set]; exact hlt, hout⟩
  | drop q locked w' hq h =>
    obtain ⟨zi, -, hw⟩ := drop_inv h
    subst hw
    exact ⟨by show p < (s.w.heap.set _ _).length; rw [List.length_set]; exact hlt, hout⟩
  | destroy name spa rc w' h =>
    obtain ⟨w1, hrun, hsub, hlen, -⟩ := destroy_effect name spa s.w hinv.wf
    rw [hrun] at h
    injection h with h
    injection h with _ h
    subst h
    exact ⟨by show p < w1.heap.length; rw [hlen]; exact hlt, fun hm => hout (hsub.subset hm)⟩

theorem steps_keep_removed {M : Nat} {s s' : Sys} (hr : Reachable M s) (h : Steps M s s')
    (p : Ptr) (hlt : p < s.w.heap.length) (hout : p ∉ s.w.zvol_list) :
    Reachable M s' ∧ p < s'.w.heap.length ∧ p ∉ s'.w.zvol_list := by
  induction h with
  | refl => exact ⟨hr, hlt, hout⟩
  | tail s1 s2 _ hstep ih =>
    obtain ⟨hr1, hlt1, hout1⟩ := ih
    exact ⟨Reachable.step _ _ hr1 hstep,
      step_keeps_removed (inv_reachable hr1) hstep p hlt1 hout1⟩

/-- C6 (counterexample): after `uzfs_zinfo_init` for "vol" and then for
"pool/vol", the handle 0, whose stored name is "vol", is on the list; the lookup
of "vol" returns the handle 1, whose stored name "pool/vol" ends with "/vol" and
which is nearer to the head. -/
theorem lookup_of_own_name_returns_other :
    ∃ s, Reachable 256 s ∧ (0 : Ptr) ∈ s.w.zvol_list ∧ name_of s.w 0 = "vol".toList ∧
      ∃ w', uzfs_zinfo_lookup (some (name_of s.w 0)) s.w = .ok (some 1, w') := by
  refine ⟨⟨⟨[⟨⟨ZVOL_INFO_STATE_ONLINE, "vol".toList, 7, 1, 0, 0⟩, false⟩,
      ⟨⟨ZVOL_INFO_STATE_ONLINE, "pool/vol".toList, 8, 1, 0, 0⟩, false⟩], [1, 0], []⟩, []⟩,
    ?_, by decide, by decide, ?_⟩
  · exact Reachable.step _ _
      (Reachable.step _ _ Reachable.start
        (Step.init Sys.start 7 "vol".toList 0
          ⟨[⟨⟨ZVOL_INFO_STATE_ONLINE, "vol".toList, 7, 1, 0, 0⟩, false⟩], [0], []⟩
          (by decide)))
      (Step.init _ 8 "pool/vol".toList 0
        ⟨[⟨⟨ZVOL_INFO_STATE_ONLINE, "vol".toList, 7, 1, 0, 0⟩, false⟩,
          ⟨⟨ZVOL_INFO_STATE_ONLINE, "pool/vol".toList, 8, 1, 0, 0⟩, false⟩], [1, 0], []⟩
        (by decide))
  · exact ⟨⟨[⟨⟨ZVOL_INFO_STATE_ONLINE, "vol".toList, 7, 1, 0, 0⟩, false⟩,
      ⟨⟨ZVOL_INFO_STATE_ONLINE, "pool/vol".toList, 8, 2, 0, 0⟩, false⟩], [1, 0], []⟩, by decide⟩

/-- C6 (amended): in every reachable state, for every handle `p`:
if `p` is on the list and no handle before it in list order has a stored name
that equals the stored name of `p` or ends with a slash followed by it, the
lookup of the stored name of `p` returns `p`; if `p` is not
on the list, no lookup of any name returns `p`; and a handle that is allocated
and not on the list (it was removed by `uzfs_zinfo_destroy`) is not on the list
after any further calls. -/
theorem lookup_reaches (MAXNAMELEN : Nat) (s : Sys) (h : Reachable MAXNAMELEN s) (p : Ptr) :
    (∀ l1 l2, s.w.zvol_list = l1 ++ p :: l2 →
      (∀ q ∈ l1, ¬ NameFound (name_of s.w q) (name_of s.w p)) →
      ∃ w', uzfs_zinfo_lookup (some (name_of s.w p)) s.w = .ok (some p, w')) ∧
    (p ∉ s.w.zvol_list →
      ∀ name r w', uzfs_zinfo_lookup name s.w = .ok (r, w') → r ≠ some p) ∧
    (p < s.w.heap.length → p ∉ s.w.zvol_list →
      ∀ s', Steps MAXNAMELEN s s' → p ∉ s'.w.zvol_list ∧
        ∀ name r w', uzfs_zinfo_lookup name s'.w = .ok (r, w') → r ≠ some p) := by
  have hwf := (inv_reachable h).wf
  have hmiss : ∀ w : World, p ∉ w.zvol_list →
      ∀ name r w', uzfs_zinfo_lookup name w = .ok (r, w') → r ≠ some p := by
    intro w hout name r w' hl hr
    rcases lookup_inv hl with ⟨hn, -⟩ | ⟨q, zi, hq, hm, -, -, -⟩
    · rw [hn] at hr
      exact absurd hr (by simp)
    · rw [hq] at hr
      injection hr with hr
      exact hout (hr ▸ hm)
  refine ⟨?_, hmiss s.w, ?_⟩
  · intro l1 l2 hsplit hbefore
    have hpm : p ∈ s.w.zvol_list := by
      rw [hsplit]
      simp
    obtain ⟨zi, hp⟩ := hwf.live hpm
    have hname : name_of s.w p = zi.name := name_of_live hp
    have hskip : lookup_loop s.w (some zi.name) (l1 ++ p :: l2)
        = lookup_loop s.w (some zi.name) (p :: l2) := by
      apply lookup_loop_skip
      intro q hq
      have hqm : q ∈ s.w.zvol_list := by
        rw [hsplit]
        exact List.mem_append_left _ hq
      obtain ⟨zj, hqj⟩ := hwf.live hqm
      have hnf := hbefore q hq
      rw [hname, name_of_live hqj] at hnf
      refine ⟨zj, hqj, ?_⟩
      rw [lookup_cond_ok]
      simp [hnf]
    rw [hname]
    unfold uzfs_zinfo_lookup
    rw [hsplit, hskip]
    simp only [lookup_loop, deref_of_live hp, lookup_cond_self, take_refcnt_live hp]
    exact ⟨_, rfl⟩
  · intro hlt hout s' hsteps
    obtain ⟨-, -, hout'⟩ := steps_keep_removed h hsteps p hlt hout
    exact ⟨hout', hmiss s'.w hout'⟩

/-- Witness of C6 (amended): handles are created for "pool/x", "pool/vol" and
"pool/a", and "pool/x" is destroyed. The lookup of "pool/vol" passes the handle
"pool/a" in front of it and returns the handle 1; the lookup of "pool/x" does not
return the removed handle 0; and after one more `uzfs_zinfo_init` for "pool/x"
the handle 0 is still not on the list. -/
theorem lookup_reaches_witness :
    Reachable 256
      ⟨⟨[⟨⟨ZVOL_INFO_STATE_OFFLINE, "pool/x".toList, 7, 0, 0, 0⟩, true⟩,
        ⟨⟨ZVOL_INFO_STATE_ONLINE, "pool/vol".toList, 8, 1, 0, 0⟩, false⟩,
        ⟨⟨ZVOL_INFO_STATE_ONLINE, "pool/a".toList, 9, 1, 0, 0⟩, false⟩], [2, 1],
        [Event.close_dataset 7]⟩, []⟩ ∧
    (∃ w', uzfs_zinfo_lookup (some "pool/vol".toList)
        ⟨[⟨⟨ZVOL_INFO_STATE_OFFLINE, "pool/x".toList, 7, 0, 0, 0⟩, true⟩,
          ⟨⟨ZVOL_INFO_STATE_ONLINE, "pool/vol".toList, 8, 1, 0, 0⟩, false⟩,
          ⟨⟨ZVOL_INFO_STATE_ONLINE, "pool/a".toList, 9, 1, 0, 0⟩, false⟩], [2, 1],
          [Event.close_dataset 7]⟩
      = .ok (some 1, w')) ∧
    (none : Option Ptr) ≠ some 0 ∧
    (0 : Ptr) ∉ ([3, 2, 1] : List Ptr) :=
  have hr : Reachable 256
      ⟨⟨[⟨⟨ZVOL_INFO_STATE_OFFLINE, "pool/x".toList, 7, 0, 0, 0⟩, true⟩,
        ⟨⟨ZVOL_INFO_STATE_ONLINE, "pool/vol".toList, 8, 1, 0, 0⟩, false⟩,
        ⟨⟨ZVOL_INFO_STATE_ONLINE, "pool/a".toList, 9, 1, 0, 0⟩, false⟩], [2, 1],
        [Event.close_dataset 7]⟩, []⟩ :=
    Reachable.step _ _
      (Reachable.step _ _
        (Reachable.step _ _
          (Reachable.step _ _ Reachable.start
            (Step.init Sys.start 7 "pool/x".toList 0
              ⟨[⟨⟨ZVOL_INFO_STATE_ONLINE, "pool/x".toList, 7, 1, 0, 0⟩, false⟩], [0], []⟩
              (by decide)))
          (Step.init _ 8 "pool/vol".toList 0
            ⟨[⟨⟨ZVOL_INFO_STATE_ONLINE, "pool/x".toList, 7, 1, 0, 0⟩, false⟩,
              ⟨⟨ZVOL_INFO_STATE_ONLINE, "pool/vol".toList, 8, 1, 0, 0⟩, false⟩], [1, 0], []⟩
            (by decide)))
        (Step.init _ 9 "pool/a".toList 0
          ⟨[⟨⟨ZVOL_INFO_STATE_ONLINE, "pool/x".toList, 7, 1, 0, 0⟩, false⟩,
            ⟨⟨ZVOL_INFO_STATE_ONLINE, "pool/vol".toList, 8, 1, 0, 0⟩, false⟩,
            ⟨⟨ZVOL_INFO_STATE_ONLINE, "pool/a".toList, 9, 1, 0, 0⟩, false⟩], [2, 1, 0], []⟩
          (by decide)))
      (Step.destroy _ (some "pool/x".toList) [] 0
        ⟨[⟨⟨ZVOL_INFO_STATE_OFFLINE, "pool/x".toList, 7, 0, 0, 0⟩, true⟩,
          ⟨⟨ZVOL_INFO_STATE_ONLINE, "pool/vol".toList, 8, 1, 0, 0⟩, false⟩,
          ⟨⟨ZVOL_INFO_STATE_ONLINE, "pool/a".toList, 9, 1, 0, 0⟩, false⟩], [2, 1],
          [Event.close_dataset 7]⟩
        (by decide))
  ⟨hr,
    (lookup_reaches 256 _ hr 1).1 [2] [] rfl (by decide),
    (lookup_reaches 256 _ hr 0).2.1 (by decide) (some "pool/x".toList) none
      ⟨[⟨⟨ZVOL_INFO_STATE_OFFLINE, "pool/x".toList, 7, 0, 0, 0⟩, true⟩,
        ⟨⟨ZVOL_INFO_STATE_ONLINE, "pool/vol".toList, 8, 1, 0, 0⟩, false⟩,
        ⟨⟨ZVOL_INFO_STATE_ONLINE, "pool/a".toList, 9, 1, 0, 0⟩, false⟩], [2, 1],
        [Event.close_dataset 7]⟩
      (by decide),
    ((lookup_reaches 256 _ hr 0).2.2 (by decide) (by decide)
      ⟨⟨[⟨⟨ZVOL_INFO_STATE_OFFLINE, "pool/x".toList, 7, 0, 0, 0⟩, true⟩,
        ⟨⟨ZVOL_INFO_STATE_ONLINE, "pool/vol".toList, 8, 1, 0, 0⟩, false⟩,
        ⟨⟨ZVOL_INFO_STATE_ONLINE, "pool/a".toList, 9, 1, 0, 0⟩, false⟩,
        ⟨⟨ZVOL_INFO_STATE_ONLINE, "pool/x".toList, 7, 1, 0, 0⟩, false⟩], [3, 2, 1],
        [Event.close_dataset 7]⟩, []⟩
      (Steps.tail _ _ _ (Steps.refl _)
        (Step.init _ 7 "pool/x".toList 0
          ⟨[⟨⟨ZVOL_INFO_STATE_OFFLINE, "pool/x".toList, 7, 0, 0, 0⟩, true⟩,
            ⟨⟨ZVOL_INFO_STATE_ONLINE, "pool/vol".toList, 8, 1, 0, 0⟩, false⟩,
            ⟨⟨ZVOL_INFO_STATE_ONLINE, "pool/a".toList, 9, 1, 0, 0⟩, false⟩,
            ⟨⟨ZVOL_INFO_STATE_ONLINE, "pool/x".toList, 7, 1, 0, 0⟩, false⟩], [3, 2, 1],
            [Event.close_dataset 7]⟩
          (by decide)))).1⟩

/-! ## C11: the lookup with no name -/

/-- C11: `uzfs_zinfo_lookup(NULL)` on the empty registry returns NULL and leaves
the state unchanged; on a registry whose head is a live handle it returns the
head, whatever the name stored there, and the only change is that the refcount
of the head is one more. -/
theorem lookup_null (w : World) :
    (w.zvol_list = [] → uzfs_zinfo_lookup none w = .ok (none, w)) ∧
    (∀ p rest zi, w.zvol_list = p :: rest → Live w p zi →
      uzfs_zinfo_lookup none w = .ok (some p,
        { w with heap := w.heap.set p ⟨{ zi with refcnt := zi.refcnt + 1 }, false⟩ })) := by
  constructor
  · intro h
    simp [uzfs_zinfo_lookup, h, lookup_loop]
  · intro p rest zi h hl
    simp only [uzfs_zinfo_lookup, h, lookup_loop, deref_of_live hl, lookup_cond,
      take_refcnt_live hl]

/-- Witness of C11: the registry holds "pool/a" at the head and "pool/b" behind
it. -/
theorem lookup_null_witness :
    ([1, 0] : List Ptr) = 1 :: [0] ∧
    Live ⟨[⟨⟨ZVOL_INFO_STATE_ONLINE, "pool/b".toList, 7, 1, 0, 0⟩, false⟩,
        ⟨⟨ZVOL_INFO_STATE_ONLINE, "pool/a".toList, 8, 1, 0, 0⟩, false⟩], [1, 0], []⟩ 1
      ⟨ZVOL_INFO_STATE_ONLINE, "pool/a".toList, 8, 1, 0, 0⟩ ∧
    uzfs_zinfo_lookup none
        ⟨[⟨⟨ZVOL_INFO_STATE_ONLINE, "pool/b".toList, 7, 1, 0, 0⟩, false⟩,
          ⟨⟨ZVOL_INFO_STATE_ONLINE, "pool/a".toList, 8, 1, 0, 0⟩, false⟩], [1, 0], []⟩
      = .ok (some 1,
        ⟨[⟨⟨ZVOL_INFO_STATE_ONLINE, "pool/b".toList, 7, 1, 0, 0⟩, false⟩,
          ⟨⟨ZVOL_INFO_STATE_ONLINE, "pool/a".toList, 8, 2, 0, 0⟩, false⟩], [1, 0], []⟩) :=
  ⟨rfl, by decide,
    (lookup_null
      ⟨[⟨⟨ZVOL_INFO_STATE_ONLINE, "pool/b".toList, 7, 1, 0, 0⟩, false⟩,
        ⟨⟨ZVOL_INFO_STATE_ONLINE, "pool/a".toList, 8, 1, 0, 0⟩, false⟩], [1, 0], []⟩).2
      1 [0] ⟨ZVOL_INFO_STATE_ONLINE, "pool/a".toList, 8, 1, 0, 0⟩ rfl (by decide)⟩

/-! ## C16: the destroy by name -/

/-- C16: on a well-formed registry `uzfs_zinfo_destroy(name, spa)` with a name
returns 0. If no stored name equals `name` or begins with `name` followed by a
slash or an at sign, the state is unchanged. Otherwise exactly the first handle
in list order with such a name is taken off the list (and changed the way
`uzfs_remove_zinfo_list` changes a handle); the list keeps its other members in
their order, and every other handle is unchanged. -/
theorem destroy_by_name (name spa : CStr) (w : World) (hwf : WF w) :
    ∃ w', uzfs_zinfo_destroy (some name) spa w = .ok (0, w') ∧
      ((w.zvol_list.find? (fun q => decide (DestroyFound (name_of w q) name)) = none ∧
          w' = w) ∨
        ∃ p, w.zvol_list.find? (fun q => decide (DestroyFound (name_of w q) name)) = some p ∧
          w'.zvol_list = w.zvol_list.filter (fun q => q != p) ∧
          w'.zvol_list.Sublist w.zvol_list ∧
          w'.heap.length = w.heap.length ∧
          w'.heap[p]? = (w.heap[p]?).map Slot.removed ∧
          ∀ q, q ≠ p → w'.heap[q]? = w.heap[q]?) := by
  have hnd := hwf.1
  rcases destroy_one_loop_effect name w w.zvol_list (fun q hq => ⟨hq, hwf.live hq⟩) with
    ⟨hfind, hrun⟩ | ⟨p, zi, hfind, hpl, hp, hrun⟩
  · exact ⟨w, by simp only [uzfs_zinfo_destroy, hrun], Or.inl ⟨hfind, rfl⟩⟩
  · have hlt := live_lt hp
    refine ⟨uzfs_close_dataset zi.zv
        { heap := w.heap.set p (Slot.removed ⟨zi, false⟩),
          zvol_list := w.zvol_list.erase p,
          events := w.events ++
            (if zi.io_ack_waiting ≠ 0 then [Event.cond_signal p] else []) },
      by simp only [uzfs_zinfo_destroy, hrun], Or.inr ⟨p, hfind, ?_, ?_, ?_, ?_, ?_⟩⟩
    · simp only [close_dataset_zvol_list]
      exact hnd.erase_eq_filter p
    · simp only [close_dataset_zvol_list]
      exact List.erase_sublist _ _
    · simp [uzfs_close_dataset]
    · unfold Live at hp
      simp [uzfs_close_dataset, List.getElem?_set, hlt, hp]
    · intro q hq
      simp [uzfs_close_dataset, List.getElem?_set, Ne.symm hq]

/-- Witness of C16: of "pool/vol@snap" (head) and "pool/vol", the destroy of
"pool/vol" removes the head. -/
theorem destroy_by_name_witness :
    WF ⟨[⟨⟨ZVOL_INFO_STATE_ONLINE, "pool/vol".toList, 7, 1, 0, 0⟩, false⟩,
        ⟨⟨ZVOL_INFO_STATE_ONLINE, "pool/vol@snap".toList, 8, 2, 0, 0⟩, false⟩], [1, 0], []⟩ ∧
    uzfs_zinfo_destroy (some "pool/vol".toList) []
        ⟨[⟨⟨ZVOL_INFO_STATE_ONLINE, "pool/vol".toList, 7, 1, 0, 0⟩, false⟩,
          ⟨⟨ZVOL_INFO_STATE_ONLINE, "pool/vol@snap".toList, 8, 2, 0, 0⟩, false⟩], [1, 0], []⟩
      = .ok (0,
        ⟨[⟨⟨ZVOL_INFO_STATE_ONLINE, "pool/vol".toList, 7, 1, 0, 0⟩, false⟩,
          ⟨⟨ZVOL_INFO_STATE_OFFLINE, "pool/vol@snap".toList, 8, 1, 0, 0⟩, false⟩], [0],
          [Event.close_dataset 8]⟩) := by
  refine ⟨by decide, ?_⟩
  obtain ⟨w', hrun, -⟩ := destroy_by_name "pool/vol".toList []
    ⟨[⟨⟨ZVOL_INFO_STATE_ONLINE, "pool/vol".toList, 7, 1, 0, 0⟩, false⟩,
      ⟨⟨ZVOL_INFO_STATE_ONLINE, "pool/vol@snap".toList, 8, 2, 0, 0⟩, false⟩], [1, 0], []⟩
    (by decide)
  decide

/-! ## C17: the positions that the lookup reads -/

theorem lookup_separator_in_bounds (zname n : CStr) (hne : zname ≠ n)
    (hs : strcmp_at zname ((zname.length : Int) - (n.length : Int)) n = .ok true) :
    ∃ c, char_at zname ((zname.length : Int) - (n.length : Int) - 1) = .ok c := by
  unfold strcmp_at at hs
  by_cases hb : (zname.length : Int) - (n.length : Int) < 0 ∨
      (zname.length : Int) < (zname.length : Int) - (n.length : Int)
  · rw [if_pos hb] at hs
    exact absurd hs (by simp)
  · rw [if_neg hb] at hs
    injection hs with hs
    have hd : zname.drop ((zname.length : Int) - (n.length : Int)).toNat = n := by
      simpa using hs
    have hlt : n.length < zname.length := by
      rcases Nat.lt_or_ge n.length zname.length with h | h
      · exact h
      · exfalso
        apply hne
        have h0 : ((zname.length : Int) - (n.length : Int)).toNat = 0 := by omega
        rw [h0] at hd
        simpa using hd
    have hb1 : ¬ ((zname.length : Int) - (n.length : Int) - 1 < 0 ∨
        (zname.length : Int) < (zname.length : Int) - (n.length : Int) - 1) := by omega
    refine ⟨zname[((zname.length : Int) - (n.length : Int) - 1).toNat]?.getD (Char.ofNat 0), ?_⟩
    simp only [char_at, hb1, if_false]

theorem lookup_read_positions_long {zname n : CStr} (hlen : n.length ≤ zname.length) :
    ∀ i ∈ lookup_read_positions zname (some n), 0 ≤ i ∧ i ≤ (zname.length : Int) := by
  intro i hi
  unfold lookup_read_positions at hi
  by_cases h1 : zname = n
  · simp [h1] at hi
  · have hneg : ¬ ((zname.length : Int) - (n.length : Int) < 0) := by omega
    simp only [h1, hneg, if_false] at hi
    cases hs : strcmp_at zname ((zname.length : Int) - (n.length : Int)) n with
    | error e =>
      simp only [hs, List.mem_singleton] at hi
      omega
    | ok b =>
      cases b with
      | false =>
        simp only [hs, List.mem_singleton] at hi
        omega
      | true =>
        obtain ⟨c, hc⟩ := lookup_separator_in_bounds zname n h1 hs
        simp only [hs, List.mem_cons, List.mem_singleton, List.not_mem_nil, or_false] at hi
        unfold char_at at hc
        by_cases hb : (zname.length : Int) - (n.length : Int) - 1 < 0 ∨
            (zname.length : Int) < (zname.length : Int) - (n.length : Int) - 1
        · rw [if_pos hb] at hc
          exact absurd hc (by simp)
        · rcases hi with hi | hi <;> omega

/-- C17 (code at the failing input): the registry holds one handle named "vol"
and the lookup is for "pool/vol". The names differ, so the loop goes on to
`strcmp(p, name)` with `p = zv->name + (3 - 8)`: the read starts at index -5 of
the stored name, outside it; `strcmp_at`, which checks that index against the
array, refuses it. The lookup itself returns NULL and changes nothing. -/
theorem lookup_long_name_negative_index :
    ∃ w, uzfs_zinfo_init 256 0 "vol".toList World.empty = .ok (0, w) ∧
      (("vol".toList.length : Int) - ("pool/vol".toList.length : Int) = -5) ∧
      strcmp_at "vol".toList (-5) "pool/vol".toList = .error .outOfBounds ∧
      lookup_read_positions "vol".toList (some "pool/vol".toList) = [-5] ∧
      lookup_loop_reads w (some "pool/vol".toList) w.zvol_list = [(0, -5)] ∧
      uzfs_zinfo_lookup (some "pool/vol".toList) w = .ok (none, w) := by
  refine ⟨⟨[⟨⟨ZVOL_INFO_STATE_ONLINE, "vol".toList, 0, 1, 0, 0⟩, false⟩], [0], []⟩,
    by decide, by decide, by decide, by decide, by decide, by decide⟩

/-! ## C14: the comparison of block metadata -/

theorem compare_lt_iff (a b : blk_metadata_t) :
    compare_blk_metadata a b = -1 ↔ blk_metadata_t.lt a b := by
  unfold compare_blk_metadata blk_metadata_t.lt
  split_ifs <;> constructor <;> intro h <;> first | omega | simp at h

theorem compare_gt_iff (a b : blk_metadata_t) :
    compare_blk_metadata a b = 1 ↔ blk_metadata_t.lt b a := by
  unfold compare_blk_metadata blk_metadata_t.lt
  split_ifs <;> constructor <;> intro h <;> first | omega | simp at h

theorem compare_eq_iff (a b : blk_metadata_t) :
    compare_blk_metadata a b = 0 ↔ a = b := by
  obtain ⟨a1, a2⟩ := a
  obtain ⟨b1, b2⟩ := b
  unfold compare_blk_metadata
  simp only [blk_metadata_t.mk.injEq]
  split_ifs <;> constructor <;> intro h <;> first | omega | simp at h

/-- C14: `compare_blk_metadata` returns -1 exactly when the first metadata is
less than the second in the order by primary sequence number and then by
secondary epoch, 0 exactly when the two are equal, and 1 exactly when the first
is greater; exactly one of the three holds; a metadata compares equal to itself;
exchanging the arguments negates the result; and "less" is transitive. -/
theorem compare_blk_metadata_total_order :
    (∀ a b : blk_metadata_t,
      (compare_blk_metadata a b = -1 ↔ blk_metadata_t.lt a b) ∧
      (compare_blk_metadata a b = 0 ↔ a = b) ∧
      (compare_blk_metadata a b = 1 ↔ blk_metadata_t.lt b a) ∧
      (compare_blk_metadata a b = -1 ∨ compare_blk_metadata a b = 0 ∨
        compare_blk_metadata a b = 1) ∧
      compare_blk_metadata a b = -compare_blk_metadata b a) ∧
    (∀ a : blk_metadata_t, compare_blk_metadata a a = 0) ∧
    (∀ a b c : blk_metadata_t, compare_blk_metadata a b = -1 →
      compare_blk_metadata b c = -1 → compare_blk_metadata a c = -1) := by
  refine ⟨?_, ?_, ?_⟩
  · intro a b
    refine ⟨compare_lt_iff a b, compare_eq_iff a b, compare_gt_iff a b, ?_, ?_⟩
    · unfold compare_blk_metadata
      split_ifs <;> simp
    · unfold compare_blk_metadata
      split_ifs <;> first | rfl | omega
  · intro a
    exact (compare_eq_iff a a).2 rfl
  · intro a b c hab hbc
    rw [compare_lt_iff] at hab hbc ⊢
    unfold blk_metadata_t.lt at *
    omega

/-- Witness of C14: the metadata (1, 9), (2, 0) and (2, 3) in a row. -/
theorem compare_blk_metadata_total_order_witness :
    compare_blk_metadata ⟨1, 9⟩ ⟨2, 0⟩ = -1 ∧ compare_blk_metadata ⟨2, 0⟩ ⟨2, 3⟩ = -1 ∧
    compare_blk_metadata ⟨1, 9⟩ ⟨2, 3⟩ = -1 :=
  ⟨by decide, by decide,
    compare_blk_metadata_total_order.2.2 ⟨1, 9⟩ ⟨2, 0⟩ ⟨2, 3⟩ (by decide) (by decide)⟩

/-! ## C15: the segments of a write that the disk has not superseded -/

theorem covers_nil (x : Nat) : ¬ covers [] x := by
  simp [covers]

theorem covers_cons (s : Segment) (segs : List Segment) (x : Nat) :
    covers (s :: segs) x ↔ (s.offset ≤ x ∧ x < s.offset + s.len) ∨ covers segs x := by
  simp [covers]

theorem covers_add_segment (offset len : Nat) (segs : List Segment) (x : Nat) :
    covers (add_segment offset len segs) x ↔
      (offset ≤ x ∧ x < offset + len) ∨ covers segs x := by
  cases segs with
  | nil => simp [add_segment, covers]
  | cons s rest =>
    unfold add_segment
    by_cases h : s.offset = offset + len
    · simp only [h, if_true, covers_cons]
      constructor
      · rintro (⟨h1, h2⟩ | h3)
        · by_cases hx : x < offset + len
          · exact Or.inl ⟨h1, hx⟩
          · exact Or.inr (Or.inl ⟨by omega, by omega⟩)
        · exact Or.inr (Or.inr h3)
      · rintro (⟨h1, h2⟩ | ⟨h1, h2⟩ | h3)
        · exact Or.inl ⟨h1, by omega⟩
        · exact Or.inl ⟨by omega, by omega⟩
        · exact Or.inr h3
    · simp only [h, if_false, covers_cons]

theorem segsFrom_mono {lo lo' : Nat} (h : lo' ≤ lo) :
    ∀ segs : List Segment, SegsFrom lo segs → SegsFrom lo' segs
  | [], _ => trivial
  | _ :: _, ⟨h1, h2, h3⟩ => ⟨le_trans h h1, h2, h3⟩

theorem segsFrom_add_segment (offset len : Nat) (hlen : 0 < len) (segs : List Segment)
    (h : SegsFrom (offset + len) segs) : SegsFrom offset (add_segment offset len segs) := by
  cases segs with
  | nil => exact ⟨le_refl _, hlen, trivial⟩
  | cons s rest =>
    obtain ⟨h1, h2, h3⟩ := h
    by_cases he : s.offset = offset + len
    · rw [show add_segment offset len (s :: rest) = ⟨offset, len + s.len⟩ :: rest from by
        simp [add_segment, he]]
      refine ⟨le_refl _, ?_, ?_⟩
      · show 0 < len + s.len
        omega
      · show SegsFrom (offset + (len + s.len) + 1) rest
        have e : offset + (len + s.len) + 1 = s.offset + s.len + 1 := by omega
        rw [e]
        exact h3
    · rw [show add_segment offset len (s :: rest) = ⟨offset, len⟩ :: s :: rest from by
        simp [add_segment, he]]
      refine ⟨le_refl _, hlen, ?_, h2, h3⟩
      show offset + len + 1 ≤ s.offset
      omega

theorem segsFrom_facts {lo : Nat} :
    ∀ segs : List Segment, SegsFrom lo segs →
      (∀ s ∈ segs, lo ≤ s.offset ∧ 0 < s.len) ∧
      segs.Pairwise (fun a b => a.offset + a.len < b.offset)
  | [], _ => ⟨by simp, List.Pairwise.nil⟩
  | s :: rest, ⟨h1, h2, h3⟩ => by
    obtain ⟨ih1, ih2⟩ := segsFrom_facts rest h3
    refine ⟨?_, ?_⟩
    · intro t ht
      rcases List.mem_cons.1 ht with ht | ht
      · subst ht
        exact ⟨h1, h2⟩
      · obtain ⟨a, b⟩ := ih1 t ht
        exact ⟨by omega, b⟩
    · refine List.Pairwise.cons ?_ ih2
      intro t ht
      have := (ih1 t ht).1
      omega

theorem build_segments_chunks (bs end_ : Nat) (disk : Nat → blk_metadata_t)
    (w : blk_metadata_t) (hbs : 0 < bs) :
    ∀ fuel pos, end_ - pos ≤ fuel →
      SegsFrom pos (build_segments bs disk w (io_chunks bs end_ fuel pos)) ∧
      ∀ x, covers (build_segments bs disk w (io_chunks bs end_ fuel pos)) x ↔
        (pos ≤ x ∧ x < end_ ∧ compare_blk_metadata (disk (x / bs)) w ≠ 1) := by
  intro fuel
  induction fuel with
  | zero =>
    intro pos h
    simp only [io_chunks, build_segments]
    refine ⟨trivial, fun x => ?_⟩
    constructor
    · intro hc
      exact absurd hc (covers_nil x)
    · rintro ⟨h1, h2, -⟩
      omega
  | succ fuel ih =>
    intro pos h
    unfold io_chunks
    by_cases hp : pos < end_
    · simp only [hp, if_true]
      have hlo : pos / bs * bs ≤ pos := Nat.div_mul_le_self pos bs
      have hhi : pos < (pos / bs + 1) * bs := by
        have := Nat.lt_mul_div_succ pos hbs
        rwa [Nat.mul_comm] at this
      have hn1 : pos < min end_ ((pos / bs + 1) * bs) := lt_min hp hhi
      have hn2 : min end_ ((pos / bs + 1) * bs) ≤ end_ := min_le_left _ _
      have hn3 : min end_ ((pos / bs + 1) * bs) ≤ (pos / bs + 1) * bs := min_le_right _ _
      have hblk : ∀ x, pos ≤ x → x < min end_ ((pos / bs + 1) * bs) → x / bs = pos / bs := by
        intro x h1 h2
        exact Nat.div_eq_of_lt_le (le_trans hlo h1) (lt_of_lt_of_le h2 hn3)
      obtain ⟨ihs, ihc⟩ := ih (min end_ ((pos / bs + 1) * bs)) (by omega)
      unfold build_segments
      by_cases hk : compare_blk_metadata (disk (pos / bs)) w = 1
      · simp only [hk, if_true]
        refine ⟨segsFrom_mono (le_of_lt hn1) _ ihs, fun x => ?_⟩
        rw [ihc x]
        constructor
        · rintro ⟨h1, h2, h3⟩
          exact ⟨by omega, h2, h3⟩
        · rintro ⟨h1, h2, h3⟩
          refine ⟨?_, h2, h3⟩
          by_contra hc
          exact h3 (by rw [hblk x h1 (by omega)]; exact hk)
      · simp only [hk, if_false]
        have hsum : pos + (min end_ ((pos / bs + 1) * bs) - pos)
            = min end_ ((pos / bs + 1) * bs) := by omega
        refine ⟨segsFrom_add_segment _ _ (by omega) _ (by rw [hsum]; exact ihs), fun x => ?_⟩
        rw [covers_add_segment, ihc x, hsum]
        constructor
        · rintro (⟨h1, h2⟩ | ⟨h1, h2, h3⟩)
          · exact ⟨h1, by omega, by rw [hblk x h1 h2]; exact hk⟩
          · exact ⟨by omega, h2, h3⟩
        · rintro ⟨h1, h2, h3⟩
          by_cases hx : x < min end_ ((pos / bs + 1) * bs)
          · exact Or.inl ⟨h1, hx⟩
          · exact Or.inr ⟨by omega, h2, h3⟩
    · simp only [hp, if_false, build_segments]
      refine ⟨trivial, fun x => ?_⟩
      constructor
      · intro hc
        exact absurd hc (covers_nil x)
      · rintro ⟨h1, h2, -⟩
        omega

/-- C15: for a positive metadata block size, every range and every write
metadata, `uzfs_search_nonoverlapping_io` returns 0 and a list of segments such
that a byte lies in a segment exactly when it lies in the range and the on-disk
metadata of its metadata block is not greater than the write metadata; every
segment holds at least one byte and lies inside the range; and the segments
ascend with at least one discarded byte between two of them, so adjacent kept
blocks are coalesced. For the write over the bytes 0 to 100 at metadata 5, with
on-disk metadata 7 on the bytes 0 to 40 and 3 on the bytes 40 to 100 (blocks of
20 bytes), the list is the one segment from 40 of length 60. -/
theorem search_nonoverlapping_io_segments :
    (∀ (bs : Nat) (disk : Nat → blk_metadata_t) (offset len : Nat) (w : blk_metadata_t),
      0 < bs →
      (uzfs_search_nonoverlapping_io bs disk offset len w).1 = 0 ∧
      (∀ x, covers (uzfs_search_nonoverlapping_io bs disk offset len w).2 x ↔
        (offset ≤ x ∧ x < offset + len ∧ compare_blk_metadata (disk (x / bs)) w ≠ 1)) ∧
      (∀ s ∈ (uzfs_search_nonoverlapping_io bs disk offset len w).2,
        offset ≤ s.offset ∧ 0 < s.len ∧ s.offset + s.len ≤ offset + len) ∧
      (uzfs_search_nonoverlapping_io bs disk offset len w).2.Pairwise
        (fun a b => a.offset + a.len < b.offset)) ∧
    uzfs_search_nonoverlapping_io 20 (fun b => if b < 2 then ⟨7, 0⟩ else ⟨3, 0⟩) 0 100 ⟨5, 0⟩
      = (0, [⟨40, 60⟩]) := by
  refine ⟨?_, by decide⟩
  intro bs disk offset len w hbs
  obtain ⟨hs, hc⟩ := build_segments_chunks bs (offset + len) disk w hbs len offset (by omega)
  obtain ⟨hf1, hf2⟩ := segsFrom_facts _ hs
  refine ⟨rfl, hc, ?_, hf2⟩
  intro s hs'
  obtain ⟨h1, h2⟩ := hf1 s hs'
  refine ⟨h1, h2, ?_⟩
  have hcov : covers (uzfs_search_nonoverlapping_io bs disk offset len w).2
      (s.offset + s.len - 1) := ⟨s, hs', by omega, by omega⟩
  have := ((hc _).1 hcov).2.1
  omega

/-- Witness of C15: blocks of 10 bytes, the write over the bytes 5 to 35 at
metadata 5, the block from 10 to 20 newer on disk. -/
theorem search_nonoverlapping_io_segments_witness :
    0 < 10 ∧
    uzfs_search_nonoverlapping_io 10 (fun b => if b = 1 then ⟨7, 0⟩ else ⟨3, 0⟩) 5 30 ⟨5, 0⟩
      = (0, [⟨5, 5⟩, ⟨20, 15⟩]) ∧
    (uzfs_search_nonoverlapping_io 10 (fun b => if b = 1 then ⟨7, 0⟩ else ⟨3, 0⟩) 5 30
      ⟨5, 0⟩).2.Pairwise (fun a b => a.offset + a.len < b.offset) :=
  ⟨by decide, by decide,
    (search_nonoverlapping_io_segments.1 10 (fun b => if b = 1 then ⟨7, 0⟩ else ⟨3, 0⟩) 5 30
      ⟨5, 0⟩ (by decide)).2.2.2⟩

/-! ## C12: the checkpoint round trip -/

theorem zap_set_lookup (key : CStr) (value : Nat) (zap : List (CStr × Nat)) :
    (zap_set key value zap).lookup key = some value := by
  simp [zap_set, List.lookup]

theorem store_io_no_eq {zv : Nat} {vols : List zvol_state_t} {v : zvol_state_t}
    (hv : vols[zv]? = some v) (X : Nat) :
    uzfs_zvol_store_last_committed_io_no zv X vols
      = .ok (vols.set zv ⟨v.zv_status, zap_set "io_seq".toList X v.zap⟩) := by
  simp [uzfs_zvol_store_last_committed_io_no, uzfs_update_zap_entries, hv, zap_update_entries]

theorem get_io_no_eq {zv : Nat} {vols : List zvol_state_t} {v : zvol_state_t}
    (hv : vols[zv]? = some v) :
    uzfs_zvol_get_last_committed_io_no zv vols
      = .ok ((v.zap.lookup "io_seq".toList).getD 0) := by
  unfold uzfs_zvol_get_last_committed_io_no uzfs_read_zap_entry
  simp only [hv]
  cases h : v.zap.lookup "io_seq".toList <;> simp [h]

theorem get_io_no_congr {zv : Nat} {vols vols' : List zvol_state_t}
    (h : vols'[zv]? = vols[zv]?) :
    uzfs_zvol_get_last_committed_io_no zv vols'
      = uzfs_zvol_get_last_committed_io_no zv vols := by
  unfold uzfs_zvol_get_last_committed_io_no uzfs_read_zap_entry
  rw [h]

/-- C12: for every volume `zv` and every value `X`,
`uzfs_zvol_store_last_committed_io_no(zv, X)` returns and the
`uzfs_zvol_get_last_committed_io_no(zv)` that follows yields `X`; a store on
another volume `zv'` leaves the value read back for `zv` as it was, also when it
comes between the store and the get on `zv`. -/
theorem checkpoint_round_trip (vols : List zvol_state_t) (zv X : Nat)
    (hzv : zv < vols.length) :
    (∃ vols1, uzfs_zvol_store_last_committed_io_no zv X vols = .ok vols1 ∧
      uzfs_zvol_get_last_committed_io_no zv vols1 = .ok X) ∧
    (∀ zv' X', zv' ≠ zv → zv' < vols.length →
      ∃ vols2, uzfs_zvol_store_last_committed_io_no zv' X' vols = .ok vols2 ∧
        uzfs_zvol_get_last_committed_io_no zv vols2
          = uzfs_zvol_get_last_committed_io_no zv vols) ∧
    (∀ zv' X', zv' ≠ zv → zv' < vols.length →
      ∃ vols1 vols2, uzfs_zvol_store_last_committed_io_no zv X vols = .ok vols1 ∧
        uzfs_zvol_store_last_committed_io_no zv' X' vols1 = .ok vols2 ∧
        uzfs_zvol_get_last_committed_io_no zv vols2 = .ok X) := by
  have hv : vols[zv]? = some (vols[zv]) := List.getElem?_eq_getElem hzv
  have hrt : uzfs_zvol_get_last_committed_io_no zv
      (vols.set zv ⟨(vols[zv]).zv_status, zap_set "io_seq".toList X (vols[zv]).zap⟩)
      = .ok X := by
    rw [@get_io_no_eq zv _ ⟨(vols[zv]).zv_status, zap_set "io_seq".toList X (vols[zv]).zap⟩
      (by simp [List.getElem?_set, hzv])]
    simp [zap_set_lookup]
  refine ⟨⟨_, store_io_no_eq hv X, hrt⟩, ?_, ?_⟩
  · intro zv' X' hne hzv'
    have hv' : vols[zv']? = some (vols[zv']) := List.getElem?_eq_getElem hzv'
    refine ⟨_, store_io_no_eq hv' X', ?_⟩
    apply get_io_no_congr
    simp [List.getElem?_set, hne]
  · intro zv' X' hne hzv'
    have hlen : zv' < (vols.set zv
        ⟨(vols[zv]).zv_status, zap_set "io_seq".toList X (vols[zv]).zap⟩).length := by
      simpa using hzv'
    have hv' := List.getElem?_eq_getElem hlen
    refine ⟨_, _, store_io_no_eq hv X, store_io_no_eq hv' X', ?_⟩
    rw [← hrt]
    apply get_io_no_congr
    simp [List.getElem?_set, hne]

/-- Witness of C12: two volumes; 5 is stored for the volume 0, then 6 for the
volume 1, and 5 is read back for the volume 0. -/
theorem checkpoint_round_trip_witness :
    0 < [zvol_state_t.mk ZVOL_STATUS_HEALTHY [], zvol_state_t.mk ZVOL_STATUS_HEALTHY []].length ∧
    uzfs_zvol_store_last_committed_io_no 0 5 [⟨ZVOL_STATUS_HEALTHY, []⟩, ⟨ZVOL_STATUS_HEALTHY, []⟩]
      = .ok [⟨ZVOL_STATUS_HEALTHY, [("io_seq".toList, 5)]⟩, ⟨ZVOL_STATUS_HEALTHY, []⟩] ∧
    uzfs_zvol_store_last_committed_io_no 1 6
        [⟨ZVOL_STATUS_HEALTHY, [("io_seq".toList, 5)]⟩, ⟨ZVOL_STATUS_HEALTHY, []⟩]
      = .ok [⟨ZVOL_STATUS_HEALTHY, [("io_seq".toList, 5)]⟩,
          ⟨ZVOL_STATUS_HEALTHY, [("io_seq".toList, 6)]⟩] ∧
    uzfs_zvol_get_last_committed_io_no 0
        [⟨ZVOL_STATUS_HEALTHY, [("io_seq".toList, 5)]⟩,
          ⟨ZVOL_STATUS_HEALTHY, [("io_seq".toList, 6)]⟩] = .ok 5 ∧
    ∃ vols1, uzfs_zvol_store_last_committed_io_no 0 5
        [⟨ZVOL_STATUS_HEALTHY, []⟩, ⟨ZVOL_STATUS_HEALTHY, []⟩] = .ok vols1 ∧
      uzfs_zvol_get_last_committed_io_no 0 vols1 = .ok 5 :=
  ⟨by decide, by decide, by decide, by decide,
    (checkpoint_round_trip [⟨ZVOL_STATUS_HEALTHY, []⟩, ⟨ZVOL_STATUS_HEALTHY, []⟩] 0 5
      (by decide)).1⟩
/-! ## C13: the checkpoint of every healthy volume -/

theorem zv_of_live {w : World} {p : Ptr} {zi : zvol_info_t} (h : Live w p zi) :
    zv_of w p = zi.zv := by
  unfold Live at h
  simp [zv_of, h]

theorem update_io_seq_loop_effect (w : World) (l : List Ptr) :
    ∀ vols : List zvol_state_t,
      (∀ q ∈ l, is_live w q = true) → (∀ q ∈ l, zv_of w q < vols.length) →
      ∃ vols1, update_io_seq_loop w l vols = .ok vols1 ∧
        vols1.length = vols.length ∧
        (∀ (v : Nat) (vol : zvol_state_t), vols[v]? = some vol →
          ∃ vol1, vols1[v]? = some vol1 ∧ vol1.zv_status = vol.zv_status) ∧
        (∀ (l1 : List Ptr) (p : Ptr) (l2 : List Ptr) (zi : zvol_info_t) (vol : zvol_state_t),
          l = l1 ++ p :: l2 → Live w p zi → vols[zi.zv]? = some vol →
          vol.zv_status = ZVOL_STATUS_HEALTHY → (∀ q ∈ l2, zv_of w q ≠ zi.zv) →
          uzfs_zvol_get_last_committed_io_no zi.zv vols1 = .ok zi.checkpointed_io_seq) ∧
        (∀ (v : Nat) (vol : zvol_state_t), vols[v]? = some vol →
          (vol.zv_status ≠ ZVOL_STATUS_HEALTHY ∨ ∀ q ∈ l, zv_of w q ≠ v) →
          vols1[v]? = some vol) := by
  induction l with
  | nil =>
    intro vols _ _
    refine ⟨vols, rfl, rfl, fun v vol h => ⟨vol, h, rfl⟩, ?_, fun v vol h _ => h⟩
    intro l1 p l2 zi vol h
    simp at h
  | cons p l ih =>
    intro vols hlive hzv
    obtain ⟨zi, hp⟩ := is_live_iff.1 (hlive p (List.mem_cons_self _ _))
    have hzp : zi.zv < vols.length := by
      have := hzv p (List.mem_cons_self _ _)
      rwa [zv_of_live hp] at this
    obtain ⟨v0, hv0⟩ : ∃ v0, vols[zi.zv]? = some v0 := ⟨_, List.getElem?_eq_getElem hzp⟩
    have hlive' : ∀ q ∈ l, is_live w q = true := fun q hq => hlive q (List.mem_cons_of_mem _ hq)
    by_cases hh : v0.zv_status = ZVOL_STATUS_HEALTHY
    · have hlen' : (vols.set zi.zv
          ⟨v0.zv_status, zap_set "io_seq".toList zi.checkpointed_io_seq v0.zap⟩).length
          = vols.length := by simp
      have hself : (vols.set zi.zv
          ⟨v0.zv_status, zap_set "io_seq".toList zi.checkpointed_io_seq v0.zap⟩)[zi.zv]?
          = some ⟨v0.zv_status, zap_set "io_seq".toList zi.checkpointed_io_seq v0.zap⟩ := by
        simp [List.getElem?_set, hzp]
      have hother : ∀ v, zi.zv ≠ v → (vols.set zi.zv
          ⟨v0.zv_status, zap_set "io_seq".toList zi.checkpointed_io_seq v0.zap⟩)[v]?
          = vols[v]? := by
        intro v hne
        simp [List.getElem?_set, hne]
      obtain ⟨vols1, hrun, hlen1, hst, hdec, hun⟩ := ih
        (vols.set zi.zv ⟨v0.zv_status, zap_set "io_seq".toList zi.checkpointed_io_seq v0.zap⟩)
        hlive' (fun q hq => by rw [hlen']; exact hzv q (List.mem_cons_of_mem _ hq))
      have hst' : ∀ (v : Nat) (vol : zvol_state_t), vols[v]? = some vol →
          ∃ vol', (vols.set zi.zv
              ⟨v0.zv_status, zap_set "io_seq".toList zi.checkpointed_io_seq v0.zap⟩)[v]?
              = some vol' ∧ vol'.zv_status = vol.zv_status := by
        intro v vol hv
        by_cases hvz : zi.zv = v
        · subst hvz
          rw [hv0] at hv
          injection hv with hv
          subst hv
          exact ⟨⟨v0.zv_status, zap_set "io_seq".toList zi.checkpointed_io_seq v0.zap⟩,
            hself, rfl⟩
        · exact ⟨vol, by rw [hother v hvz]; exact hv, rfl⟩
      refine ⟨vols1, ?_, by rw [hlen1, hlen'], ?_, ?_, ?_⟩
      · simp only [update_io_seq_loop, deref_of_live hp, uzfs_zvol_get_status, hv0, hh, if_true,
          store_io_no_eq hv0]
        rw [hh] at hrun
        exact hrun
      · intro v vol hv
        obtain ⟨vol', hv', hs'⟩ := hst' v vol hv
        obtain ⟨vol1, hv1, hs1⟩ := hst v vol' hv'
        exact ⟨vol1, hv1, hs1.trans hs'⟩
      · intro l1 p' l2 zi' vol hsplit hp' hvol hhealthy hlast
        cases l1 with
        | nil =>
          simp only [List.nil_append, List.cons.injEq] at hsplit
          obtain ⟨hpp, hl2⟩ := hsplit
          subst hpp
          subst hl2
          have hzi : zi' = zi := by
            unfold Live at hp hp'
            rw [hp] at hp'
            injection hp' with hp'
            injection hp' with hp' _
            exact hp'.symm
          subst hzi
          have := hun zi'.zv _ hself (Or.inr hlast)
          rw [get_io_no_eq this]
          simp [zap_set_lookup]
        | cons a l1' =>
          simp only [List.cons_append, List.cons.injEq] at hsplit
          obtain ⟨-, hl⟩ := hsplit
          obtain ⟨vol', hv', hs'⟩ := hst' zi'.zv vol hvol
          exact hdec l1' p' l2 zi' vol' hl hp' hv' (hs'.trans hhealthy) hlast
      · intro v vol hv hcond
        have hne : zi.zv ≠ v := by
          intro he
          subst he
          rcases hcond with h | h
          · rw [hv0] at hv
            injection hv with hv
            exact h (hv ▸ hh)
          · exact h p (List.mem_cons_self _ _) (zv_of_live hp)
        apply hun v vol (by rw [hother v hne]; exact hv)
        rcases hcond with h | h
        · exact Or.inl h
        · exact Or.inr (fun q hq => h q (List.mem_cons_of_mem _ hq))
    · obtain ⟨vols1, hrun, hlen1, hst, hdec, hun⟩ := ih vols hlive'
        (fun q hq => hzv q (List.mem_cons_of_mem _ hq))
      refine ⟨vols1, ?_, hlen1, hst, ?_, ?_⟩
      · simp only [update_io_seq_loop, deref_of_live hp, uzfs_zvol_get_status, hv0, hh, if_false]
        exact hrun
      · intro l1 p' l2 zi' vol hsplit hp' hvol hhealthy hlast
        cases l1 with
        | nil =>
          simp only [List.nil_append, List.cons.injEq] at hsplit
          obtain ⟨hpp, hl2⟩ := hsplit
          subst hpp
          have hzi : zi' = zi := by
            unfold Live at hp hp'
            rw [hp] at hp'
            injection hp' with hp'
            injection hp' with hp' _
            exact hp'.symm
          subst hzi
          rw [hv0] at hvol
          injection hvol with hvol
          exact absurd (hvol ▸ hhealthy) hh
        | cons a l1' =>
          simp only [List.cons_append, List.cons.injEq] at hsplit
          obtain ⟨-, hl⟩ := hsplit
          exact hdec l1' p' l2 zi' vol hl hp' hvol hhealthy hlast
      · intro v vol hv hcond
        apply hun v vol hv
        rcases hcond with h | h
        · exact Or.inl h
        · exact Or.inr (fun q hq => h q (List.mem_cons_of_mem _ hq))

/-- C13 (counterexample): the registry holds two handles for the same healthy
volume 0, the head with `checkpointed_io_seq` 4 and the one behind it with 9. The
call stores 4 and then 9 for the volume: afterwards the stored io_seq is 9, which
is not the `checkpointed_io_seq` of the head. -/
theorem update_io_seq_shared_volume :
    uzfs_zvol_get_status 0 [⟨ZVOL_STATUS_HEALTHY, []⟩] = .ok ZVOL_STATUS_HEALTHY ∧
    Live ⟨[⟨⟨ZVOL_INFO_STATE_ONLINE, "pool/a".toList, 0, 1, 0, 9⟩, false⟩,
        ⟨⟨ZVOL_INFO_STATE_ONLINE, "pool/b".toList, 0, 1, 0, 4⟩, false⟩], [1, 0], []⟩ 1
      ⟨ZVOL_INFO_STATE_ONLINE, "pool/b".toList, 0, 1, 0, 4⟩ ∧
    uzfs_zinfo_update_io_seq_for_all_volumes
        ⟨[⟨⟨ZVOL_INFO_STATE_ONLINE, "pool/a".toList, 0, 1, 0, 9⟩, false⟩,
          ⟨⟨ZVOL_INFO_STATE_ONLINE, "pool/b".toList, 0, 1, 0, 4⟩, false⟩], [1, 0], []⟩
        [⟨ZVOL_STATUS_HEALTHY, []⟩]
      = .ok (⟨[⟨⟨ZVOL_INFO_STATE_ONLINE, "pool/a".toList, 0, 1, 0, 9⟩, false⟩,
          ⟨⟨ZVOL_INFO_STATE_ONLINE, "pool/b".toList, 0, 1, 0, 4⟩, false⟩], [1, 0], []⟩,
          [⟨ZVOL_STATUS_HEALTHY, [("io_seq".toList, 9)]⟩]) ∧
    uzfs_zvol_get_last_committed_io_no 0 [⟨ZVOL_STATUS_HEALTHY, [("io_seq".toList, 9)]⟩]
      = .ok 9 ∧
    (9 : Nat) ≠ 4 := by
  refine ⟨by decide, by decide, by decide, by decide, by decide⟩

/-- C13 (amended): on a registry whose list members are allocated handles with
allocated volumes, `uzfs_zinfo_update_io_seq_for_all_volumes` returns and leaves
the registry as it was. No volume changes its status. For every handle on the
list whose volume is healthy and is not the volume of a handle behind it on the
list, the stored io_seq of the volume is afterwards the `checkpointed_io_seq` of
that handle. A volume that is not healthy, or is the volume of no handle on the
list, is unchanged, its stored io_seq included. -/
theorem update_io_seq_all_volumes (w : World) (vols : List zvol_state_t)
    (hlive : ∀ q ∈ w.zvol_list, is_live w q = true)
    (hzv : ∀ q ∈ w.zvol_list, zv_of w q < vols.length) :
    ∃ vols1, uzfs_zinfo_update_io_seq_for_all_volumes w vols = .ok (w, vols1) ∧
      vols1.length = vols.length ∧
      (∀ (v : Nat) (vol : zvol_state_t), vols[v]? = some vol →
        ∃ vol1, vols1[v]? = some vol1 ∧ vol1.zv_status = vol.zv_status) ∧
      (∀ (l1 : List Ptr) (p : Ptr) (l2 : List Ptr) (zi : zvol_info_t) (vol : zvol_state_t),
        w.zvol_list = l1 ++ p :: l2 → Live w p zi → vols[zi.zv]? = some vol →
        vol.zv_status = ZVOL_STATUS_HEALTHY → (∀ q ∈ l2, zv_of w q ≠ zi.zv) →
        uzfs_zvol_get_last_committed_io_no zi.zv vols1 = .ok zi.checkpointed_io_seq) ∧
      (∀ (v : Nat) (vol : zvol_state_t), vols[v]? = some vol →
        (vol.zv_status ≠ ZVOL_STATUS_HEALTHY ∨ ∀ q ∈ w.zvol_list, zv_of w q ≠ v) →
        vols1[v]? = some vol ∧
        uzfs_zvol_get_last_committed_io_no v vols1
          = uzfs_zvol_get_last_committed_io_no v vols) := by
  obtain ⟨vols1, hrun, hlen, hst, hdec, hun⟩ :=
    update_io_seq_loop_effect w w.zvol_list vols hlive hzv
  refine ⟨vols1, by simp only [uzfs_zinfo_update_io_seq_for_all_volumes, hrun], hlen, hst,
    hdec, ?_⟩
  intro v vol hv hcond
  have h1 := hun v vol hv hcond
  exact ⟨h1, get_io_no_congr (h1.trans hv.symm)⟩

/-- Witness of C13 (amended): the head is a handle with `checkpointed_io_seq` 4
for the degraded volume 1, whose stored io_seq is 2, and behind it is a handle
with `checkpointed_io_seq` 9 for the healthy volume 0. After the call the stored
io_seq is 9 for the volume 0 and still 2 for the volume 1. -/
theorem update_io_seq_all_volumes_witness :
    (∀ q ∈ ([1, 0] : List Ptr), is_live
      ⟨[⟨⟨ZVOL_INFO_STATE_ONLINE, "pool/a".toList, 0, 1, 0, 9⟩, false⟩,
        ⟨⟨ZVOL_INFO_STATE_ONLINE, "pool/b".toList, 1, 1, 0, 4⟩, false⟩], [1, 0], []⟩ q = true) ∧
    (∀ q ∈ ([1, 0] : List Ptr), zv_of
      ⟨[⟨⟨ZVOL_INFO_STATE_ONLINE, "pool/a".toList, 0, 1, 0, 9⟩, false⟩,
        ⟨⟨ZVOL_INFO_STATE_ONLINE, "pool/b".toList, 1, 1, 0, 4⟩, false⟩], [1, 0], []⟩ q
      < [zvol_state_t.mk ZVOL_STATUS_HEALTHY [],
          zvol_state_t.mk ZVOL_STATUS_DEGRADED [("io_seq".toList, 2)]].length) ∧
    uzfs_zinfo_update_io_seq_for_all_volumes
        ⟨[⟨⟨ZVOL_INFO_STATE_ONLINE, "pool/a".toList, 0, 1, 0, 9⟩, false⟩,
          ⟨⟨ZVOL_INFO_STATE_ONLINE, "pool/b".toList, 1, 1, 0, 4⟩, false⟩], [1, 0], []⟩
        [⟨ZVOL_STATUS_HEALTHY, []⟩, ⟨ZVOL_STATUS_DEGRADED, [("io_seq".toList, 2)]⟩]
      = .ok (⟨[⟨⟨ZVOL_INFO_STATE_ONLINE, "pool/a".toList, 0, 1, 0, 9⟩, false⟩,
          ⟨⟨ZVOL_INFO_STATE_ONLINE, "pool/b".toList, 1, 1, 0, 4⟩, false⟩], [1, 0], []⟩,
          [⟨ZVOL_STATUS_HEALTHY, [("io_seq".toList, 9)]⟩,
            ⟨ZVOL_STATUS_DEGRADED, [("io_seq".toList, 2)]⟩]) ∧
    ∃ vols1, uzfs_zinfo_update_io_seq_for_all_volumes
        ⟨[⟨⟨ZVOL_INFO_STATE_ONLINE, "pool/a".toList, 0, 1, 0, 9⟩, false⟩,
          ⟨⟨ZVOL_INFO_STATE_ONLINE, "pool/b".toList, 1, 1, 0, 4⟩, false⟩], [1, 0], []⟩
        [⟨ZVOL_STATUS_HEALTHY, []⟩, ⟨ZVOL_STATUS_DEGRADED, [("io_seq".toList, 2)]⟩]
        = .ok (⟨[⟨⟨ZVOL_INFO_STATE_ONLINE, "pool/a".toList, 0, 1, 0, 9⟩, false⟩,
          ⟨⟨ZVOL_INFO_STATE_ONLINE, "pool/b".toList, 1, 1, 0, 4⟩, false⟩], [1, 0], []⟩,
          vols1) ∧
      uzfs_zvol_get_last_committed_io_no 0 vols1 = .ok 9 ∧
      uzfs_zvol_get_last_committed_io_no 1 vols1 = .ok 2 := by
  refine ⟨by decide, by decide, by decide, ?_⟩
  obtain ⟨vols1, hrun, -, -, hdec, hun⟩ := update_io_seq_all_volumes
    ⟨[⟨⟨ZVOL_INFO_STATE_ONLINE, "pool/a".toList, 0, 1, 0, 9⟩, false⟩,
      ⟨⟨ZVOL_INFO_STATE_ONLINE, "pool/b".toList, 1, 1, 0, 4⟩, false⟩], [1, 0], []⟩
    [⟨ZVOL_STATUS_HEALTHY, []⟩, ⟨ZVOL_STATUS_DEGRADED, [("io_seq".toList, 2)]⟩]
    (by decide) (by decide)
  refine ⟨vols1, hrun, ?_, ?_⟩
  · exact hdec [1] 0 [] ⟨ZVOL_INFO_STATE_ONLINE, "pool/a".toList, 0, 1, 0, 9⟩
      ⟨ZVOL_STATUS_HEALTHY, []⟩ rfl (by decide) (by decide) rfl (by simp)
  · have h := (hun 1 ⟨ZVOL_STATUS_DEGRADED, [("io_seq".toList, 2)]⟩ (by decide)
      (Or.inl (by decide))).2
    rw [h]
    decide

end Zrepl
